import Mathlib

set_option maxHeartbeats 1000000

/-!
Shallow embedding of the worker-mailer email composition engine
(source: src/email.ts) and verification of its specification claims.

Modelling conventions:
* JS strings are modelled as Lean `String`s (lists of Unicode scalar values);
  `string.length` is the number of scalar values.
* JS falsiness of optional strings (`undefined` or `""`) is modelled by `truthy`.
* Randomness (`crypto.randomBytes`, `crypto.randomUUID`) and the clock
  (`new Date().toUTCString()`) are modelled by an explicit `Env` record
  passed to the composition functions.
* The mutation of `this.headers` performed by `getEmailData` is modelled by
  state passing: `getEmailData` returns the payload together with the
  updated `Email` record.
* The runtime `TypeError` that `resolveTo` would raise when
  `Email.toUsers(options.to)` returned `undefined` (possible despite the
  non-null assertion `!` when `options.to` is the empty string) is modelled
  by `Option`: `getEmailData` returns `none` in that case.
-/

namespace Mailer

/-- JS truthiness of an optional string: `undefined` and `""` are falsy. -/
def truthy : Option String → Bool
  | none => false
  | some s => !(s == "")

/-- JS `Array.prototype.join(sep)` on strings. -/
def joinSep (sep : String) : List String → String
  | [] => ""
  | [x] => x
  | x :: xs => x ++ sep ++ joinSep sep xs

/-- Join char-list lines with a separator (list-level version of `joinSep`). -/
def joinL (sep : List Char) : List (List Char) → List Char
  | [] => []
  | [x] => x
  | x :: xs => x ++ sep ++ joinL sep xs

/-- Concatenation of a list of strings (JS `+=` accumulation over a loop). -/
def joinAll : List String → String
  | [] => ""
  | s :: ss => s ++ joinAll ss

/-- JS `String.prototype.split(sep)` for a one-character separator
(structural recursion over the characters). -/
def splitOnChar (sep : Char) : List Char → List (List Char)
  | [] => [[]]
  | c :: rest =>
    if c = sep then [] :: splitOnChar sep rest
    else
      match splitOnChar sep rest with
      | [] => [[c]]
      | w :: ws => (c :: w) :: ws

/-- Render a list of lines as a CRLF-terminated block: every line is
followed by `"\r\n"`. -/
def renderLines : List String → String
  | [] => ""
  | l :: ls => l ++ "\r\n" ++ renderLines ls

/-- Boolean prefix test on char lists. -/
def listIsPfx : List Char → List Char → Bool
  | [], _ => true
  | _ :: _, [] => false
  | a :: as, b :: bs => a == b && listIsPfx as bs

/-- Boolean test that string `p` is a prefix of string `s`. -/
def startsB (p s : String) : Bool := listIsPfx p.data s.data

/-- Remove every CR and LF character (used to state the base64 re-joining
round-trip: "removing the line breaks"). -/
def removeCRLF (l : List Char) : List Char :=
  l.filter (fun c => !(c == '\r' || c == '\n'))

/-- The characters matched by the JS regex character class `\s`
(whitespace, as used by `/\S+/g` in `wrapText`). -/
def jsSpace (c : Char) : Bool :=
  c ∈ [' ', '\t', '\n', '\r', '\u000B', '\u000C', '\u00A0', '\u1680',
    '\u2000', '\u2001', '\u2002', '\u2003', '\u2004', '\u2005', '\u2006',
    '\u2007', '\u2008', '\u2009', '\u200A', '\u2028', '\u2029', '\u202F',
    '\u205F', '\u3000', '\uFEFF']

/-- The characters matched by the JS regex `.` (anything but line
terminators), as used by `/.{1,72}/g` in the attachment chunker. -/
def jsDotChar (c : Char) : Bool :=
  !(c ∈ ['\n', '\r', '\u2028', '\u2029'])

/-- The characters replaced by `'_'` in `generateSafeBoundary`
(regex `/[<>@,;:\\/[\]?=" ]/g`). -/
def boundaryBadChar (c : Char) : Bool :=
  c ∈ ['<', '>', '@', ',', ';', ':', '\\', '/', '[', ']', '?', '=', '"', ' ']

/-- The base64 alphabet in index order. -/
def b64Alphabet : List Char :=
  ['A','B','C','D','E','F','G','H','I','J','K','L','M','N','O','P','Q','R',
   'S','T','U','V','W','X','Y','Z','a','b','c','d','e','f','g','h','i','j',
   'k','l','m','n','o','p','q','r','s','t','u','v','w','x','y','z','0','1',
   '2','3','4','5','6','7','8','9','+','/']

/-- The base64 digit for a 6-bit value. -/
def b64Char (n : Nat) : Char := b64Alphabet.getD n 'A'

/-- The 6-bit value of a base64 digit. -/
def b64Val (c : Char) : Nat := b64Alphabet.indexOf c

/-- Base64 encoding of a byte sequence (Node `Buffer.toString('base64')`,
with `=` padding). -/
def b64encode : List Nat → List Char
  | [] => []
  | [a] => [b64Char (a / 4), b64Char (a % 4 * 16), '=', '=']
  | [a, b] => [b64Char (a / 4), b64Char (a % 4 * 16 + b / 16), b64Char (b % 16 * 4), '=']
  | a :: b :: c :: rest =>
    b64Char (a / 4) :: b64Char (a % 4 * 16 + b / 16) ::
      b64Char (b % 16 * 4 + c / 64) :: b64Char (c % 64) :: b64encode rest

/-- Base64 decoding of a char sequence (inverse of `b64encode` on valid
input; anything unparseable is truncated). -/
def b64decode : List Char → List Nat
  | a :: b :: c :: d :: rest =>
    if c = '=' then [b64Val a * 4 + b64Val b / 16]
    else if d = '=' then
      [b64Val a * 4 + b64Val b / 16, b64Val b % 16 * 16 + b64Val c / 4]
    else
      (b64Val a * 4 + b64Val b / 16) :: (b64Val b % 16 * 16 + b64Val c / 4) ::
        (b64Val c % 4 * 64 + b64Val d) :: b64decode rest
  | _ => []

/-- UTF-8 encoding of one Unicode scalar value (Node `Buffer.from(s, 'utf8')`). -/
def utf8Bytes (c : Char) : List Nat :=
  let n := c.toNat
  if n < 128 then [n]
  else if n < 2048 then [192 + n / 64, 128 + n % 64]
  else if n < 65536 then [224 + n / 4096, 128 + n / 64 % 64, 128 + n % 64]
  else [240 + n / 262144, 128 + n / 4096 % 64, 128 + n / 64 % 64, 128 + n % 64]

/-- UTF-8 byte sequence of a string. -/
def strBytes (s : String) : List Nat := s.data.flatMap utf8Bytes

/-- `Buffer.from(s, 'utf8').toString('base64')`. -/
def b64OfString (s : String) : String := String.mk (b64encode (strBytes s))

/-- Fuel-indexed fixed-size chunking loop (structural recursion so the
kernel can evaluate it). -/
def chunksGo (n : Nat) : Nat → List Char → List (List Char)
  | _, [] => []
  | 0, _ :: _ => []
  | fuel + 1, c :: rest => (c :: rest).take n :: chunksGo n fuel ((c :: rest).drop n)

/-- Fixed-size chunking of a char list (JS `word.slice(i, i + maxLength)`
loop; also the `/.{1,72}/g` chunking within a line-terminator-free run).
The JS loop does not terminate for `n = 0`; that case is never reached in
the source (guarded by `word.length > maxLength`) and returns `[]` here. -/
def chunksOf (n : Nat) (l : List Char) : List (List Char) :=
  if n = 0 then [] else chunksGo n l.length l

/-- Accumulator-style splitting into maximal runs of non-whitespace chars
(JS `text.match(/\S+/g) || []`); `acc` holds the current word reversed. -/
def wordsOfAux : List Char → List Char → List (List Char)
  | [], acc => if acc = [] then [] else [acc.reverse]
  | c :: rest, acc =>
    if jsSpace c then
      if acc = [] then wordsOfAux rest [] else acc.reverse :: wordsOfAux rest []
    else wordsOfAux rest (c :: acc)

/-- The non-whitespace words of a char list. -/
def wordsOf (l : List Char) : List (List Char) := wordsOfAux l []

/-- Accumulator-style splitting into maximal runs of non-line-terminator
chars (the runs matched by `/.{1,72}/g` before 72-chunking). -/
def dotRunsAux : List Char → List Char → List (List Char)
  | [], acc => if acc = [] then [] else [acc.reverse]
  | c :: rest, acc =>
    if jsDotChar c then dotRunsAux rest (c :: acc)
    else if acc = [] then dotRunsAux rest []
    else acc.reverse :: dotRunsAux rest []

/-- All matches of the JS regex `/.{1,72}/g` against a char list
(`attachment.content.match(/.{1,72}/g)`, with `null` modelled as `[]`). -/
def jsMatch172 (l : List Char) : List (List Char) :=
  (dotRunsAux l []).flatMap (chunksOf 72)

/-- The greedy word-wrap loop of `wrapText`: `currentLine` is the second
argument; a word longer than `maxLength` is force-split into fixed-size
chunks. Mirrors the `for (const word of words)` loop of the source. -/
def wrapLoop (maxLength : Nat) : List (List Char) → List Char → List (List Char)
  | [], cur => if cur = [] then [] else [cur]
  | w :: ws, cur =>
    if maxLength < w.length then
      (if cur = [] then [] else [cur]) ++ chunksOf maxLength w ++ wrapLoop maxLength ws []
    else if cur.length + w.length + (if cur = [] then 0 else 1) ≤ maxLength then
      wrapLoop maxLength ws (cur ++ (if cur = [] then [] else [' ']) ++ w)
    else
      cur :: wrapLoop maxLength ws w

/-- `wrapText` at the char-list level: words, then the greedy wrap loop. -/
def wrapWords (maxLength : Nat) (l : List Char) : List (List Char) :=
  wrapLoop maxLength (wordsOf l) []

/-- `Email.wrapText(text, maxLength)`: the list of produced lines. -/
def wrapText (text : String) (maxLength : Nat) : List String :=
  (wrapWords maxLength text.data).map (fun l => String.mk l)

/-- The `User` type of the source: `{ name?: string; email: string }`. -/
structure User where
  name : Option String := none
  email : String
deriving DecidableEq, Repr

/-- A value that is either a bare string or a `User` record. -/
inductive StrOrUser where
  | str (s : String)
  | user (u : User)
deriving DecidableEq, Repr

/-- A recipient field value: a single string-or-user, or an array whose
elements are strings or users (`string | string[] | User | User[]`). -/
inductive UserInput where
  | one (x : StrOrUser)
  | many (xs : List StrOrUser)
deriving DecidableEq, Repr

/-- An attachment: `{ filename, content (base64 from the caller), mimeType? }`. -/
structure Attachment where
  filename : String
  content : String
  mimeType : Option String := none
deriving DecidableEq, Repr

/-- The `dsnOverride` pass-through structure (opaque to composition). -/
structure DsnOverride where
  envelopeId : Option String := none
  retHeaders : Option Bool := none
  retFull : Option Bool := none
  notifyDelay : Option Bool := none
  notifyFailure : Option Bool := none
  notifySuccess : Option Bool := none
deriving DecidableEq, Repr

/-- The `EmailOptions` constructor input. -/
structure EmailOptions where
  «from» : StrOrUser
  «to» : UserInput
  reply : Option StrOrUser := none
  cc : Option UserInput := none
  bcc : Option UserInput := none
  subject : String
  text : Option String := none
  html : Option String := none
  headers : Option (List (String × String)) := none
  attachments : Option (List Attachment) := none
  dsnOverride : Option DsnOverride := none
deriving DecidableEq, Repr

/-- A constructed `Email`. `to` is `Option` because `Email.toUsers` can
return `undefined` at runtime (empty-string input) despite the non-null
assertion in the source. `headers` is the mutable header map, modelled as
an insertion-ordered association list (JS object string keys). -/
structure Email where
  «from» : User
  «to» : Option (List User)
  reply : Option User := none
  cc : Option (List User) := none
  bcc : Option (List User) := none
  subject : String
  text : Option String := none
  html : Option String := none
  attachments : Option (List Attachment) := none
  headers : List (String × String) := []
  dsnOverride : Option DsnOverride := none
deriving DecidableEq, Repr

/-- Coerce a bare string to `{email: string}`, keep a `User` as is
(the `typeof === 'string'` tests in the constructor and `toUsers`). -/
def coerceUser : StrOrUser → User
  | .str s => { email := s }
  | .user u => u

/-- `Email.toUsers`: JS-faithful, including the initial falsiness check
(`undefined` and `""` are falsy, an empty array is truthy). -/
def toUsers : Option UserInput → Option (List User)
  | none => none
  | some (.one (.str s)) => if s = "" then none else some [{ email := s }]
  | some (.one (.user u)) => some [u]
  | some (.many xs) => some (xs.map coerceUser)

/-- The `Email` constructor. `none` models the thrown
`Error('At least one of text or html must be provided')`. -/
def mkEmail (o : EmailOptions) : Option Email :=
  if !truthy o.text && !truthy o.html then none
  else some {
    «from» := coerceUser o.«from»
    reply := o.reply.map coerceUser
    «to» := toUsers (some o.«to»)
    cc := toUsers o.cc
    bcc := toUsers o.bcc
    subject := o.subject
    text := o.text
    html := o.html
    attachments := o.attachments
    dsnOverride := o.dsnOverride
    headers := o.headers.getD []
  }

/-- The nondeterministic inputs of one `getEmailData` call: the frozen
clock reading, the generated UUID, and the hex strings produced by the two
`crypto.randomBytes(28).toString('hex')` calls. -/
structure Env where
  now : String
  uuid : String
  mixedHex : String
  altHex : String
deriving DecidableEq, Repr

/-- JS object property write `m[k] = v`: replaces the value in place when
the key exists (keeping its position), otherwise appends the new entry. -/
def setHeader (m : List (String × String)) (k v : String) : List (String × String) :=
  if m.any (fun p => p.1 == k) then
    m.map (fun p => if p.1 == k then (p.1, v) else p)
  else m ++ [(k, v)]

/-- JS object property read `m[k]` (`undefined` as `none`). -/
def getHeader (m : List (String × String)) (k : String) : Option String :=
  (m.find? (fun p => p.1 == k)).map (fun p => p.2)

/-- Format one address: `"name <email>"` when a truthy name is present,
otherwise the bare email (shared by resolveFrom/To/Reply/CC). -/
def formatUser (u : User) : String :=
  match u.name with
  | some n => if n = "" then u.email else n ++ " <" ++ u.email ++ ">"
  | none => u.email

/-- `resolveSubject`: always-encoded UTF-8 base64 encoded word. -/
def encodeSubject (subject : String) : String :=
  "=?utf-8?b?" ++ b64OfString subject ++ "?="

/-- The generated Message-ID:
`` `<${crypto.randomUUID()}@${this.from.email.split('@').pop()}>` ``. -/
def genMessageId (env : Env) (fromEmail : String) : String :=
  "<" ++ env.uuid ++ "@" ++
    String.mk ((splitOnChar '@' fromEmail.data).getLast?.getD []) ++ ">"

/-- The header-resolution pipeline of `resolveHeader` once `this.to` is
known to be defined: resolveFrom, resolveTo, resolveReply, resolveCC,
resolveBCC (a no-op: the assignment is commented out in the source),
resolveSubject, then Date and Message-ID. -/
def resolveSteps (e : Email) (env : Env) (toList : List User) :
    List (String × String) :=
  let h1 := setHeader e.headers "From" (formatUser e.«from»)
  let h2 := setHeader h1 "To" (joinSep ", " (toList.map formatUser))
  let h3 := match e.reply with
    | some r => setHeader h2 "Reply-To" (formatUser r)
    | none => h2
  let h4 := match e.cc with
    | some cc => setHeader h3 "CC" (joinSep ", " (cc.map formatUser))
    | none => h3
  let h5 := setHeader h4 "Subject" (encodeSubject e.subject)
  let h6 := setHeader h5 "Date" env.now
  let mid := match getHeader h6 "Message-ID" with
    | some v => if v = "" then genMessageId env e.«from».email else v
    | none => genMessageId env e.«from».email
  setHeader h6 "Message-ID" mid

/-- `resolveHeader`: the resolution pipeline, or `none` for the
`TypeError` when `this.to` is `undefined`. -/
def resolveHeader (e : Email) (env : Env) : Option (List (String × String)) :=
  match e.«to» with
  | none => none
  | some toList => some (resolveSteps e env toList)

/-- The header keys the resolution pipeline may write. -/
def reservedHeaderKeys : List String :=
  ["From", "To", "Reply-To", "CC", "Subject", "Date", "Message-ID"]

/-- Boolean test: no colon in the string. -/
def noColonB (s : String) : Bool := s.data.all (fun c => !(c == ':'))

/-- Boolean test: no CR or LF in the string. -/
def noCRLFB (s : String) : Bool := s.data.all (fun c => !(c == '\r' || c == '\n'))

/-- `generateSafeBoundary`: prefix ++ random hex, with every character of
the unsafe set replaced by `'_'`. The random hex string comes from `Env`. -/
def generateSafeBoundary (pfx : String) (hex : String) : String :=
  String.mk ((pfx ++ hex).data.map (fun c => if boundaryBadChar c then '_' else c))

/-- The mixed boundary of one composition. -/
def mixedBoundary (env : Env) : String := generateSafeBoundary "mixed_" env.mixedHex

/-- The alternative boundary of one composition. -/
def altBoundary (env : Env) : String := generateSafeBoundary "alternative_" env.altHex

/-- The fixed extension→MIME-type table of `getMimeType`. -/
def mimeTable : List (String × String) :=
  [("txt", "text/plain"), ("html", "text/html"), ("csv", "text/csv"),
   ("pdf", "application/pdf"), ("png", "image/png"), ("jpg", "image/jpeg"),
   ("jpeg", "image/jpeg"), ("gif", "image/gif"), ("zip", "application/zip")]

/-- The extension extracted by `getMimeType`:
`filename.split('.').pop()?.toLowerCase()`. -/
def fileExtension (filename : String) : String :=
  String.mk (((splitOnChar '.' filename.data).getLast?.getD []).map Char.toLower)

/-- The key actually read: `extension || 'txt'` (the empty extension is
falsy). -/
def mimeKey (filename : String) : String :=
  if fileExtension filename = "" then "txt" else fileExtension filename

/-- The property names of `Object.prototype`. The `mimeTypes` object is a
plain object literal, so `mimeTypes[key]` for a key that is no own
property does not stop at `undefined`: it walks the prototype chain and
yields the inherited member for these names (a truthy, non-string value:
`constructor` is the `Object` function, `__proto__` the prototype object
itself, the rest native functions). -/
def objectProtoMembers : List String :=
  ["constructor", "__proto__", "__defineGetter__", "__defineSetter__",
   "__lookupGetter__", "__lookupSetter__", "hasOwnProperty", "isPrototypeOf",
   "propertyIsEnumerable", "toLocaleString", "toString", "valueOf"]

/-- Result of `mimeTypes[extension || 'txt'] || 'application/octet-stream'`:
either a string, or the truthy non-string value inherited from
`Object.prototype` (carried here by the property name that was read). -/
inductive MimeResult where
  | str : String → MimeResult
  | protoMember : String → MimeResult
  deriving DecidableEq, Repr

/-- `getMimeType`: the key looked up on the object literal — an own
property yields its MIME string; a missing own key naming an
`Object.prototype` member yields that inherited truthy value, which the
`||` keeps; any other key reads `undefined` and falls back to
`application/octet-stream`. -/
def getMimeType (filename : String) : MimeResult :=
  match mimeTable.find? (fun p => p.1 == mimeKey filename) with
  | some p => .str p.2
  | none =>
    if mimeKey filename ∈ objectProtoMembers then .protoMember (mimeKey filename)
    else .str "application/octet-stream"

/-- The string the template literal interpolates for the lookup result:
a string is kept as is; a leaked `Object.prototype` member is stringified
as in V8 (the Workers/Node runtime): `constructor` is the `Object`
function, `__proto__` the plain prototype object, the rest native
functions of the same name. -/
def mimeResultStr : MimeResult → String
  | .str s => s
  | .protoMember "constructor" => "function Object() { [native code] }"
  | .protoMember "__proto__" => "[object Object]"
  | .protoMember name => "function " ++ name ++ "() { [native code] }"

/-- `attachment.mimeType || this.getMimeType(attachment.filename)`, as
interpolated into the part header. -/
def effectiveMime (a : Attachment) : String :=
  match a.mimeType with
  | some m => if m = "" then mimeResultStr (getMimeType a.filename) else m
  | none => mimeResultStr (getMimeType a.filename)

/-- Literal header line of the plain-text sub-part. -/
def ctPlainLine : String := "Content-Type: text/plain; charset=\"utf-8\""

/-- Literal header line of the HTML sub-part. -/
def ctHtmlLine : String := "Content-Type: text/html; charset=\"utf-8\""

/-- Literal transfer-encoding header line. -/
def cteBase64Line : String := "Content-Transfer-Encoding: base64"

/-- The `multipart/alternative` Content-Type line with its boundary. -/
def ctAltLine (env : Env) : String :=
  "Content-Type: multipart/alternative; boundary=\"" ++ altBoundary env ++ "\""

/-- The `multipart/mixed` Content-Type line with its boundary. -/
def ctMixedLine (env : Env) : String :=
  "Content-Type: multipart/mixed; boundary=\"" ++ mixedBoundary env ++ "\""

/-- The Content-Type line of one attachment part. -/
def attachmentCTLine (a : Attachment) : String :=
  "Content-Type: " ++ effectiveMime a ++ "; name=\"" ++ a.filename ++ "\""

/-- The chunked attachment content as appended by the source: the joined
`/.{1,72}/g` matches, or the raw content when the match is `null`. -/
def attachmentContentStr (content : String) : String :=
  if jsMatch172 content.data = [] then content
  else joinSep "\r\n" ((jsMatch172 content.data).map (fun l => String.mk l))

/-- One attachment part of the body, as the source concatenates it. -/
def attachmentString (env : Env) (mixedB : String) (a : Attachment) : String :=
  "--" ++ mixedB ++ "\r\n" ++
  attachmentCTLine a ++ "\r\n" ++
  "Content-Description: " ++ a.filename ++ "\r\n" ++
  "Content-Disposition: attachment; filename=\"" ++ a.filename ++ "\";\r\n" ++
  "    creation-date=\"" ++ env.now ++ "\";\r\n" ++
  cteBase64Line ++ "\r\n\r\n" ++
  attachmentContentStr a.content ++ "\r\n\r\n"

/-- The multipart body exactly as `getEmailData` concatenates it after the
blank line: alternative block (text part if truthy, html part if truthy),
closing alternative delimiter, attachment parts, closing mixed delimiter
and the SMTP `.` terminator. -/
def bodyString (e : Email) (env : Env) : String :=
  "--" ++ mixedBoundary env ++ "\r\n" ++
  ctAltLine env ++ "\r\n\r\n" ++
  (if truthy e.text then
    "--" ++ altBoundary env ++ "\r\n" ++ ctPlainLine ++ "\r\n\r\n" ++
      joinSep "\r\n" (wrapText (e.text.getD "") 998) ++ "\r\n\r\n"
  else "") ++
  (if truthy e.html then
    "--" ++ altBoundary env ++ "\r\n" ++ ctHtmlLine ++ "\r\n" ++ cteBase64Line ++ "\r\n\r\n" ++
      joinSep "\r\n" (wrapText (b64OfString (e.html.getD "")) 76) ++ "\r\n\r\n"
  else "") ++
  "--" ++ altBoundary env ++ "--\r\n" ++
  (match e.attachments with
  | none => ""
  | some as => joinAll (as.map (attachmentString env (mixedBoundary env)))) ++
  "--" ++ mixedBoundary env ++ "--\r\n.\r\n"

/-- The `headersArray` of `getEmailData`: `MIME-Version` first, then the
entries of the (already resolved) header map, then the mixed
Content-Type. -/
def headersArray (env : Env) (h : List (String × String)) : List String :=
  "MIME-Version: 1.0" :: h.map (fun p => p.1 ++ ": " ++ p.2) ++ [ctMixedLine env]

/-- `Email.getEmailData()`: resolves the headers (mutating the map), then
builds the payload. Returns the payload together with the updated `Email`;
`none` models the `TypeError` crash when `this.to` is `undefined`. -/
def getEmailData (e : Email) (env : Env) : Option (String × Email) :=
  match resolveHeader e env with
  | none => none
  | some h =>
    some (joinSep "\r\n" (headersArray env h) ++ "\r\n\r\n" ++ bodyString e env,
      { e with headers := h })

/-- Structured view of a body block `lines.join('\r\n') + '\r\n\r\n'`. -/
def blockOf (ls : List String) : List String :=
  if ls = [] then ["", ""] else ls ++ [""]

/-- Structured view of the chunked attachment content followed by the
closing `'\r\n\r\n'` (line-exact for CR/LF-free content). -/
def attachContentLines (content : String) : List String :=
  if jsMatch172 content.data = [] then ["", ""]
  else (jsMatch172 content.data).map (fun l => String.mk l) ++ [""]

/-- Structured view of one attachment part as a list of lines. -/
def attachmentLines (env : Env) (mixedB : String) (a : Attachment) : List String :=
  ["--" ++ mixedB,
   attachmentCTLine a,
   "Content-Description: " ++ a.filename,
   "Content-Disposition: attachment; filename=\"" ++ a.filename ++ "\";",
   "    creation-date=\"" ++ env.now ++ "\";",
   cteBase64Line,
   ""] ++ attachContentLines a.content

/-- Structured view of the body as a list of lines. -/
def bodyLines (e : Email) (env : Env) : List String :=
  ["--" ++ mixedBoundary env, ctAltLine env, ""] ++
  (if truthy e.text then
    ["--" ++ altBoundary env, ctPlainLine, ""] ++ blockOf (wrapText (e.text.getD "") 998)
  else []) ++
  (if truthy e.html then
    ["--" ++ altBoundary env, ctHtmlLine, cteBase64Line, ""] ++
      blockOf (wrapText (b64OfString (e.html.getD "")) 76)
  else []) ++
  ["--" ++ altBoundary env ++ "--"] ++
  (match e.attachments with
  | none => []
  | some as => as.flatMap (attachmentLines env (mixedBoundary env))) ++
  ["--" ++ mixedBoundary env ++ "--", "."]

/-- Structured view of the whole payload as a list of lines: header block,
blank separator line, body lines. -/
def emailLines (env : Env) (h : List (String × String)) (e : Email) : List String :=
  headersArray env h ++ [""] ++ bodyLines e env

/-- A concrete environment used by witnesses. -/
def envA : Env :=
  { now := "Mon, 01 Jan 2024 00:00:00 GMT",
    uuid := "11111111-2222-3333-4444-555555555555",
    mixedHex := "0a1b2c", altHex := "3d4e5f" }

/-- A second concrete environment (different clock and randomness). -/
def envB : Env :=
  { now := "Tue, 02 Jan 2024 09:30:00 GMT",
    uuid := "66666666-7777-8888-9999-000000000000",
    mixedHex := "abcdef", altHex := "fedcba" }

/-- A concrete sender. -/
def userA : User := { email := "a@example.com" }

/-- A concrete recipient. -/
def userB : User := { email := "b@example.com" }

/-- A small concrete message (text only). -/
def emailA : Email :=
  { «from» := userA, «to» := some [userB], subject := "Hi", text := some "hello" }

/-- A concrete message exercising text, html, an attachment and a custom
header. -/
def emailFull : Email :=
  { «from» := userA, «to» := some [userB], subject := "Hi",
    text := some "hello world", html := some "<p>hi</p>",
    attachments := some [{ filename := "a.pdf", content := "QUJDRA" }],
    headers := [("X-Custom", "1")] }

/-- A concrete message with a caller-supplied `CC` custom header but no cc
recipients, and an empty-string `Message-ID` custom header. -/
def emailCC : Email :=
  { «from» := userA, «to» := some [userB], subject := "s", text := some "t",
    headers := [("CC", "spy@example.org"), ("Message-ID", "")] }

/-- Constructor options whose `text` is supplied but is the empty string. -/
def optsEmptyText : EmailOptions :=
  { «from» := .str "a@example.com", «to» := .one (.str "b@example.com"),
    subject := "s", text := some "" }

/-- Constructor options whose `to` is an empty array. -/
def optsEmptyTo : EmailOptions :=
  { «from» := .str "a@example.com", «to» := .many [], subject := "s",
    text := some "t" }

/-- The `Email` record produced by `mkEmail optsEmptyTo`. -/
def emailEmptyTo : Email :=
  { «from» := { email := "a@example.com" }, «to» := some [], subject := "s",
    text := some "t" }

/-- String equality follows from equality of the underlying char lists. -/
theorem str_ext {a b : String} (h : a.data = b.data) : a = b := by
  cases a; cases b; exact congrArg String.mk (by simpa using h)

/-- Two strings whose first characters differ are different. -/
theorem ne_of_data_head {a b : String} (h : a.data.head? ≠ b.data.head?) : a ≠ b :=
  fun e => h (by rw [e])

/-- `listIsPfx` decides the prefix relation. -/
theorem listIsPfx_iff (p s : List Char) : listIsPfx p s = true ↔ ∃ t, p ++ t = s := by
  induction p generalizing s with
  | nil => simpa [listIsPfx] using ⟨s, rfl⟩
  | cons a as ih =>
    cases s with
    | nil => simp [listIsPfx]
    | cons b bs =>
      simp only [listIsPfx, Bool.and_eq_true, beq_iff_eq, ih, List.cons_append,
        List.cons.injEq]
      constructor
      · rintro ⟨rfl, t, rfl⟩; exact ⟨t, rfl, rfl⟩
      · rintro ⟨t, rfl, rfl⟩; exact ⟨rfl, t, rfl⟩

/-- A list is a prefix of itself extended. -/
theorem listIsPfx_self (p t : List Char) : listIsPfx p (p ++ t) = true :=
  (listIsPfx_iff p (p ++ t)).mpr ⟨t, rfl⟩

/-- A string starts with itself extended. -/
theorem startsB_append_right (a b : String) : startsB a (a ++ b) = true := by
  unfold startsB
  rw [String.data_append]
  exact listIsPfx_self a.data b.data

/-- A prefix determines the first character. -/
theorem startsB_head {p x : String} {c : Char} (h : startsB p x = true)
    (hc : p.data.head? = some c) : x.data.head? = some c := by
  unfold startsB at h
  obtain ⟨t, ht⟩ := (listIsPfx_iff _ _).mp h
  cases hp : p.data with
  | nil => rw [hp] at hc; cases hc
  | cons a as =>
    rw [hp] at hc ht
    have hca : a = c := by simpa using hc
    rw [← ht, ← hca]
    rfl

/-- Strings with prefixes that begin with different characters differ. -/
theorem ne_of_startsB {p q x y : String} {c d : Char} (hx : startsB p x = true)
    (hy : startsB q y = true) (hc : p.data.head? = some c)
    (hd : q.data.head? = some d) (hcd : c ≠ d) : x ≠ y := by
  intro e
  have h1 := startsB_head hx hc
  have h2 := startsB_head hy hd
  rw [e, h2] at h1
  exact hcd (Option.some.inj h1).symm

/-- Cancelling up to the first colon: two colon-free keys followed by
`':'` and arbitrary tails agree when the whole lists agree. -/
theorem key_colon_cancel : ∀ (kd pd u v : List Char), ':' ∉ kd → ':' ∉ pd →
    kd ++ ':' :: u = pd ++ ':' :: v → kd = pd := by
  intro kd
  induction kd with
  | nil =>
    intro pd u v _ hp h
    cases pd with
    | nil => rfl
    | cons c pd' =>
      simp only [List.nil_append, List.cons_append, List.cons.injEq] at h
      exact absurd (by rw [h.1]; exact List.mem_cons_self c pd') hp
  | cons a kd' ih =>
    intro pd u v hk hp h
    cases pd with
    | nil =>
      simp only [List.cons_append, List.nil_append, List.cons.injEq] at h
      exact absurd (by rw [← h.1]; exact List.mem_cons_self a kd') hk
    | cons c pd' =>
      simp only [List.cons_append, List.cons.injEq] at h
      have := ih pd' u v (fun hm => hk (List.mem_cons_of_mem a hm))
        (fun hm => hp (List.mem_cons_of_mem c hm)) h.2
      rw [h.1, this]

/-- A rendered header line `k ++ ": " ++ v` starts with `name ++ ": "`
exactly when the (colon-free) keys agree. -/
theorem startsB_header_iff {name k v : String} (hk : ':' ∉ k.data)
    (hn : ':' ∉ name.data) :
    startsB (name ++ ": ") (k ++ ": " ++ v) = true ↔ k = name := by
  constructor
  · intro h
    unfold startsB at h
    obtain ⟨t, ht⟩ := (listIsPfx_iff _ _).mp h
    rw [String.data_append, String.data_append, String.data_append] at ht
    have hcolon : (": " : String).data = ':' :: [' '] := rfl
    rw [hcolon] at ht
    simp only [List.append_assoc, List.cons_append, List.singleton_append] at ht
    have := key_colon_cancel name.data k.data (' ' :: t) (' ' :: v.data) hn hk ht
    exact (str_ext this).symm
  · rintro rfl
    exact startsB_append_right (k ++ ": ") v

/-- Rendering distributes over list append. -/
theorem renderLines_append (a b : List String) :
    renderLines (a ++ b) = renderLines a ++ renderLines b := by
  induction a with
  | nil => simp [renderLines]
  | cons x xs ih =>
    show x ++ "\r\n" ++ renderLines (xs ++ b) = x ++ "\r\n" ++ renderLines xs ++ renderLines b
    rw [ih]
    simp [String.append_assoc]

/-- On a non-empty list, rendering is joining with CRLF plus a final CRLF. -/
theorem renderLines_eq_joinSep (x : String) (xs : List String) :
    renderLines (x :: xs) = joinSep "\r\n" (x :: xs) ++ "\r\n" := by
  induction xs generalizing x with
  | nil => simp [renderLines, joinSep, String.append_empty]
  | cons y ys ih =>
    show x ++ "\r\n" ++ renderLines (y :: ys) = x ++ "\r\n" ++ joinSep "\r\n" (y :: ys) ++ "\r\n"
    rw [ih y]
    simp [String.append_assoc]

/-- A body block `lines.join('\r\n') + '\r\n\r\n'` renders `blockOf`. -/
theorem joinSep_block (ls : List String) :
    joinSep "\r\n" ls ++ "\r\n\r\n" = renderLines (blockOf ls) := by
  cases ls with
  | nil =>
    show ("" : String) ++ "\r\n\r\n" = renderLines ["", ""]
    rw [String.empty_append]
    rfl
  | cons x xs =>
    have hne : x :: xs ≠ [] := by simp
    show joinSep "\r\n" (x :: xs) ++ "\r\n\r\n" = renderLines (blockOf (x :: xs))
    rw [blockOf, if_neg hne, renderLines_append, renderLines_eq_joinSep]
    show _ = _ ++ ("" ++ "\r\n" ++ renderLines [])
    rw [String.empty_append]
    show _ = _ ++ ("\r\n" ++ "")
    rw [String.append_empty, String.append_assoc]
    rfl

/-- `getHeader` on the empty map. -/
theorem getHeader_nil (k : String) : getHeader [] k = none := rfl

/-- First-order unfolding of `getHeader` on a cons cell. -/
theorem getHeader_cons (p : String × String) (m : List (String × String))
    (k : String) :
    getHeader (p :: m) k = if p.1 == k then some p.2 else getHeader m k := by
  cases h : p.1 == k with
  | true => simp [getHeader, List.find?_cons, h]
  | false => simp [getHeader, List.find?_cons, h]

/-- `getHeader` on an appended map: first map wins. -/
theorem getHeader_append_or (m1 m2 : List (String × String)) (k : String) :
    getHeader (m1 ++ m2) k = (getHeader m1 k).or (getHeader m2 k) := by
  induction m1 with
  | nil => simp [getHeader_nil]
  | cons p m ih =>
    rw [List.cons_append, getHeader_cons, getHeader_cons]
    by_cases hp : p.1 = k <;> simp [hp, ih]

/-- Reading the replaced key after an in-place value replacement. -/
theorem getHeader_replace_self (m : List (String × String)) (k v : String)
    (hany : m.any (fun p => p.1 == k) = true) :
    getHeader (m.map (fun p => if p.1 == k then (p.1, v) else p)) k = some v := by
  induction m with
  | nil => cases hany
  | cons p m ih =>
    simp only [List.map_cons, getHeader_cons]
    by_cases hp : p.1 = k
    · simp [hp]
    · have hm : m.any (fun p => p.1 == k) = true := by
        rcases List.any_eq_true.mp hany with ⟨a, ha, hpa⟩
        rcases List.mem_cons.mp ha with rfl | ha'
        · exact absurd (beq_iff_eq.mp hpa) hp
        · exact List.any_eq_true.mpr ⟨a, ha', hpa⟩
      simpa [hp] using ih hm

/-- Reading the appended key when it was absent. -/
theorem getHeader_append_self (m : List (String × String)) (k v : String)
    (hnone : m.any (fun p => p.1 == k) = false) :
    getHeader (m ++ [(k, v)]) k = some v := by
  have hmiss : getHeader m k = none := by
    induction m with
    | nil => rfl
    | cons p m ih =>
      simp only [List.any_cons, Bool.or_eq_false_iff] at hnone
      rw [getHeader_cons, if_neg (by simp [hnone.1])]
      exact ih hnone.2
  rw [getHeader_append_or, hmiss]
  simp [getHeader_cons]

/-- Reading another key is unaffected by an in-place value replacement. -/
theorem getHeader_replace_ne (m : List (String × String)) (k v k' : String)
    (h : k' ≠ k) :
    getHeader (m.map (fun p => if p.1 == k then (p.1, v) else p)) k' =
      getHeader m k' := by
  induction m with
  | nil => rfl
  | cons p m ih =>
    simp only [List.map_cons, getHeader_cons]
    by_cases hp : p.1 = k
    · have h1 : ((if p.1 == k then (p.1, v) else p) : String × String) = (p.1, v) := by
        simp [hp]
      have hp' : ¬p.1 = k' := fun e => h (e ▸ hp)
      rw [h1, if_neg (by simp [hp']), if_neg (by simp [hp'])]
      exact ih
    · have h1 : ((if p.1 == k then (p.1, v) else p) : String × String) = p := by
        simp [hp]
      rw [h1]
      by_cases hp' : p.1 = k'
      · rw [if_pos (by simp [hp']), if_pos (by simp [hp'])]
      · rw [if_neg (by simp [hp']), if_neg (by simp [hp'])]
        exact ih

/-- Reading another key is unaffected by appending a fresh entry. -/
theorem getHeader_append_ne (m : List (String × String)) (k v k' : String)
    (h : k' ≠ k) :
    getHeader (m ++ [(k, v)]) k' = getHeader m k' := by
  rw [getHeader_append_or]
  have hc : ¬((k, v).1 == k') = true := by
    simp only [beq_iff_eq]
    exact fun e => h e.symm
  have : getHeader [(k, v)] k' = none := by
    rw [getHeader_cons, if_neg hc]
    rfl
  rw [this]
  cases getHeader m k' <;> rfl

/-- Writing a key makes `getHeader` return the written value. -/
theorem getHeader_set_self (m : List (String × String)) (k v : String) :
    getHeader (setHeader m k v) k = some v := by
  cases hany : m.any (fun p => p.1 == k) with
  | true =>
    rw [setHeader, if_pos hany]
    exact getHeader_replace_self m k v hany
  | false =>
    rw [setHeader, if_neg (by simp [hany])]
    exact getHeader_append_self m k v hany

/-- Writing one key leaves reads of other keys unchanged. -/
theorem getHeader_set_ne (m : List (String × String)) (k v k' : String)
    (h : k' ≠ k) : getHeader (setHeader m k v) k' = getHeader m k' := by
  cases hany : m.any (fun p => p.1 == k) with
  | true =>
    rw [setHeader, if_pos hany]
    exact getHeader_replace_ne m k v k' h
  | false =>
    rw [setHeader, if_neg (by simp [hany])]
    exact getHeader_append_ne m k v k' h

/-- Every entry of `setHeader m k v` is an entry of `m` or has key `k`. -/
theorem mem_setHeader {m : List (String × String)} {k v : String}
    {p : String × String} (hp : p ∈ setHeader m k v) : p ∈ m ∨ p.1 = k := by
  unfold setHeader at hp
  split at hp
  · obtain ⟨q, hq, he⟩ := List.mem_map.mp hp
    by_cases hqk : q.1 = k
    · right
      rw [← he]
      simp [hqk]
    · left
      rw [← he]
      simpa [hqk] using hq
  · rcases List.mem_append.mp hp with h | h
    · exact Or.inl h
    · right
      simp only [List.mem_singleton] at h
      rw [h]

/-- The key list after `setHeader`: unchanged when the key was present,
extended by the key otherwise. -/
theorem keys_setHeader (m : List (String × String)) (k v : String) :
    (setHeader m k v).map Prod.fst =
      if m.any (fun p => p.1 == k) then m.map Prod.fst
      else m.map Prod.fst ++ [k] := by
  unfold setHeader
  split
  next =>
    rw [List.map_map]
    apply List.map_congr_left
    intro p _
    by_cases hp : p.1 = k <;> simp [hp]
  next =>
    simp

/-- `setHeader` preserves key list without duplicates. -/
theorem nodup_keys_setHeader {m : List (String × String)} (k v : String)
    (h : (m.map Prod.fst).Nodup) : ((setHeader m k v).map Prod.fst).Nodup := by
  rw [keys_setHeader]
  split
  · exact h
  next hany =>
    have hk : k ∉ m.map Prod.fst := by
      intro hm
      obtain ⟨p, hp, he⟩ := List.mem_map.mp hm
      exact hany (List.any_eq_true.mpr ⟨p, hp, by simp [he]⟩)
    rw [List.nodup_append]
    refine ⟨h, List.nodup_singleton k, ?_⟩
    intro a ha hb
    rw [List.mem_singleton] at hb
    exact hk (hb ▸ ha)

/-- After `setHeader m k v` the key `k` is present. -/
theorem mem_keys_setHeader (m : List (String × String)) (k v : String) :
    k ∈ (setHeader m k v).map Prod.fst := by
  rw [keys_setHeader]
  split
  next hany =>
    obtain ⟨p, hp, he⟩ := List.any_eq_true.mp hany
    exact List.mem_map.mpr ⟨p, hp, by simpa using he⟩
  · simp

/-- `setHeader` never removes keys. -/
theorem keys_setHeader_mono {m : List (String × String)} {k' : String}
    (k v : String) (h : k' ∈ m.map Prod.fst) :
    k' ∈ (setHeader m k v).map Prod.fst := by
  rw [keys_setHeader]
  split
  · exact h
  · exact List.mem_append_left _ h

/-- In a map with duplicate-free keys, a present key has exactly one
entry. -/
theorem countP_key_eq_one {m : List (String × String)} {k : String}
    (hnd : (m.map Prod.fst).Nodup) (hk : k ∈ m.map Prod.fst) :
    m.countP (fun p => p.1 == k) = 1 := by
  have h1 : m.countP (fun p => p.1 == k) = (m.map Prod.fst).countP (fun s => s == k) := by
    rw [List.countP_map]
    rfl
  rw [h1]
  have h2 : (m.map Prod.fst).countP (fun s => s == k) = (m.map Prod.fst).count k := rfl
  rw [h2]
  exact List.count_eq_one_of_mem hnd hk

/-- The chunking loop does not depend on the fuel, given enough of it. -/
theorem chunksGo_fuel (n : Nat) (hn : n ≠ 0) :
    ∀ (f1 : Nat), ∀ (f2 : Nat) (l : List Char), l.length ≤ f1 → l.length ≤ f2 →
      chunksGo n f1 l = chunksGo n f2 l := by
  intro f1
  induction f1 with
  | zero =>
    intro f2 l h1 _
    have : l = [] := by
      cases l with
      | nil => rfl
      | cons c r => simp at h1
    rw [this]
    cases f2 <;> rfl
  | succ g1 ih =>
    intro f2 l h1 h2
    cases l with
    | nil => cases f2 <;> rfl
    | cons c r =>
      cases f2 with
      | zero => simp at h2
      | succ g2 =>
        rw [chunksGo, chunksGo]
        rw [ih g2 ((c :: r).drop n) ?_ ?_]
        · simp only [List.length_drop, List.length_cons] at *
          omega
        · simp only [List.length_drop, List.length_cons] at *
          omega

/-- The one-step unfolding of `chunksOf`. -/
theorem chunksOf_eq (n : Nat) (l : List Char) :
    chunksOf n l =
      if n = 0 ∨ l = [] then [] else l.take n :: chunksOf n (l.drop n) := by
  by_cases hn : n = 0
  · rw [chunksOf, if_pos hn, if_pos (Or.inl hn)]
  · cases l with
    | nil =>
      rw [chunksOf, if_neg hn, if_pos (Or.inr rfl)]
      rfl
    | cons c r =>
      rw [if_neg (by simp [hn])]
      rw [chunksOf, if_neg hn, chunksOf, if_neg hn]
      rw [List.length_cons, chunksGo]
      rw [chunksGo_fuel n hn r.length ((c :: r).drop n).length ((c :: r).drop n) ?_ ?_]
      · simp only [List.length_drop, List.length_cons]
        omega
      · simp only [List.length_drop, List.length_cons]
        omega

/-- Concatenating the fixed-size chunks restores the list. -/
theorem chunksOf_flatten (n : Nat) (hn : n ≠ 0) (l : List Char) :
    (chunksOf n l).flatten = l := by
  rw [chunksOf_eq]
  split
  next h =>
    rcases h with h | h
    · exact absurd h hn
    · rw [h]; rfl
  next =>
    rw [List.flatten_cons, chunksOf_flatten n hn (l.drop n), List.take_append_drop]
termination_by l.length
decreasing_by
  have h2 : l ≠ [] := fun e => (by simp [e, hn] at *)
  have h3 : 0 < l.length := List.length_pos.mpr h2
  simp only [List.length_drop]
  omega

/-- Every fixed-size chunk is non-empty, bounded by the chunk size, and
made of characters of the input. -/
theorem chunksOf_mem (n : Nat) (l : List Char) :
    ∀ x ∈ chunksOf n l, x ≠ [] ∧ x.length ≤ n ∧ ∀ c ∈ x, c ∈ l := by
  rw [chunksOf_eq]
  split
  next => simp
  next h =>
    intro x hx
    rcases List.mem_cons.mp hx with rfl | hx'
    · refine ⟨?_, List.length_take_le n l, fun c hc => List.mem_of_mem_take hc⟩
      intro he
      rcases List.take_eq_nil_iff.mp he with h1 | h1 <;> exact h (by simp [h1])
    · obtain ⟨h1, h2, h3⟩ := chunksOf_mem n (l.drop n) x hx'
      exact ⟨h1, h2, fun c hc => List.mem_of_mem_drop (h3 c hc)⟩
termination_by l.length
decreasing_by
  rename_i hcond
  have h1 : n ≠ 0 := fun e => hcond (Or.inl e)
  have h2 : l ≠ [] := fun e => hcond (Or.inr e)
  have h3 : 0 < l.length := List.length_pos.mpr h2
  simp only [List.length_drop]
  omega

/-- Splitting at an explicit space: the word scan distributes. -/
theorem wordsOfAux_append_space (a : List Char) :
    ∀ (acc b : List Char),
      wordsOfAux (a ++ ' ' :: b) acc = wordsOfAux a acc ++ wordsOfAux b [] := by
  induction a with
  | nil =>
    intro acc b
    show wordsOfAux (' ' :: b) acc = wordsOfAux [] acc ++ wordsOfAux b []
    rw [wordsOfAux, wordsOfAux]
    rw [if_pos (by decide : jsSpace ' ' = true)]
    by_cases hacc : acc = []
    · rw [if_pos hacc, if_pos hacc]; rfl
    · rw [if_neg hacc, if_neg hacc]; rfl
  | cons c a' ih =>
    intro acc b
    show wordsOfAux (c :: (a' ++ ' ' :: b)) acc = wordsOfAux (c :: a') acc ++ wordsOfAux b []
    rw [wordsOfAux]
    conv_rhs => rw [wordsOfAux]
    by_cases hc : jsSpace c = true
    · rw [if_pos hc, if_pos hc]
      by_cases hacc : acc = []
      · rw [if_pos hacc, if_pos hacc, ih]
      · rw [if_neg hacc, if_neg hacc, ih, List.cons_append]
    · rw [if_neg hc, if_neg hc, ih]

/-- Words produced by the scan are non-empty and whitespace-free (given a
whitespace-free accumulator). -/
theorem wordsOfAux_wf (l : List Char) :
    ∀ (acc : List Char), (∀ c ∈ acc, jsSpace c = false) →
      ∀ w ∈ wordsOfAux l acc, w ≠ [] ∧ ∀ c ∈ w, jsSpace c = false := by
  induction l with
  | nil =>
    intro acc hacc w hw
    rw [wordsOfAux] at hw
    split at hw
    · cases hw
    next hne =>
      rw [List.mem_singleton] at hw
      subst hw
      exact ⟨by simpa using hne, fun c hc => hacc c (List.mem_reverse.mp hc)⟩
  | cons c l' ih =>
    intro acc hacc w hw
    rw [wordsOfAux] at hw
    by_cases hc : jsSpace c = true
    · rw [if_pos hc] at hw
      split at hw
      · exact ih [] (by simp) w hw
      next hne =>
        rcases List.mem_cons.mp hw with rfl | hw'
        · exact ⟨by simpa using hne, fun c hc => hacc c (List.mem_reverse.mp hc)⟩
        · exact ih [] (by simp) w hw'
    · rw [if_neg hc] at hw
      refine ih (c :: acc) ?_ w hw
      intro d hd
      rcases List.mem_cons.mp hd with rfl | hd'
      · simpa using hc
      · exact hacc d hd'

/-- Scanning a whitespace-free tail yields a single word. -/
theorem wordsOfAux_single (w : List Char) :
    ∀ (acc : List Char), (∀ c ∈ w, jsSpace c = false) → (acc ≠ [] ∨ w ≠ []) →
      wordsOfAux w acc = [acc.reverse ++ w] := by
  induction w with
  | nil =>
    intro acc _ hne
    rw [wordsOfAux, if_neg (by tauto)]
    simp
  | cons c w' ih =>
    intro acc hw _
    rw [wordsOfAux, if_neg (by simpa using hw c (List.mem_cons_self c w'))]
    rw [ih (c :: acc) (fun d hd => hw d (List.mem_cons_of_mem c hd)) (Or.inl (by simp))]
    simp

/-- A non-empty whitespace-free list is its own single word. -/
theorem wordsOf_single (w : List Char) (hne : w ≠ [])
    (hw : ∀ c ∈ w, jsSpace c = false) : wordsOf w = [w] := by
  rw [wordsOf, wordsOfAux_single w [] hw (Or.inr hne)]
  rfl

/-- Characters of words come from the scanned list or the accumulator. -/
theorem wordsOfAux_chars (l : List Char) :
    ∀ (acc : List Char), ∀ w ∈ wordsOfAux l acc, ∀ c ∈ w, c ∈ l ∨ c ∈ acc := by
  induction l with
  | nil =>
    intro acc w hw c hc
    rw [wordsOfAux] at hw
    split at hw
    · cases hw
    · rw [List.mem_singleton] at hw
      subst hw
      exact Or.inr (List.mem_reverse.mp hc)
  | cons d l' ih =>
    intro acc w hw c hc
    rw [wordsOfAux] at hw
    by_cases hd : jsSpace d = true
    · rw [if_pos hd] at hw
      split at hw
      · rcases ih [] w hw c hc with h | h
        · exact Or.inl (List.mem_cons_of_mem d h)
        · cases h
      · rcases List.mem_cons.mp hw with rfl | hw'
        · exact Or.inr (List.mem_reverse.mp hc)
        · rcases ih [] w hw' c hc with h | h
          · exact Or.inl (List.mem_cons_of_mem d h)
          · cases h
    · rw [if_neg hd] at hw
      rcases ih (d :: acc) w hw c hc with h | h
      · exact Or.inl (List.mem_cons_of_mem d h)
      · rcases List.mem_cons.mp h with rfl | h'
        · exact Or.inl (List.mem_cons_self c l')
        · exact Or.inr h'

/-- The words of a single-space join are the concatenation of the words of
the parts. -/
theorem wordsOf_join (lines : List (List Char)) :
    wordsOf (joinL [' '] lines) = lines.flatMap wordsOf := by
  match lines with
  | [] => rfl
  | [x] => simp [joinL]
  | x :: y :: t =>
    show wordsOf (x ++ [' '] ++ joinL [' '] (y :: t)) = _
    rw [List.append_assoc, List.singleton_append]
    rw [wordsOf, wordsOfAux_append_space]
    rw [List.flatMap_cons]
    rw [show wordsOfAux (joinL [' '] (y :: t)) [] = wordsOf (joinL [' '] (y :: t)) from rfl]
    rw [wordsOf_join (y :: t)]
    rfl

/-- A list of non-empty whitespace-free lines is fixed by taking words. -/
theorem flatMap_wordsOf_self (ls : List (List Char))
    (h : ∀ x ∈ ls, x ≠ [] ∧ ∀ c ∈ x, jsSpace c = false) :
    ls.flatMap wordsOf = ls := by
  induction ls with
  | nil => rfl
  | cons x xs ih =>
    rw [List.flatMap_cons]
    obtain ⟨h1, h2⟩ := h x (List.mem_cons_self x xs)
    rw [wordsOf_single x h1 h2, ih (fun y hy => h y (List.mem_cons_of_mem x hy))]
    rfl

/-- The words of the wrapped lines are exactly the original words, with
over-long words replaced by their forced chunks. -/
theorem wrapLoop_words (mx : Nat) (hmx : mx ≠ 0) :
    ∀ (ws : List (List Char)) (cur : List Char),
      (∀ w ∈ ws, w ≠ [] ∧ ∀ c ∈ w, jsSpace c = false) →
      (wrapLoop mx ws cur).flatMap wordsOf =
        wordsOf cur ++
          ws.flatMap (fun w => if mx < w.length then chunksOf mx w else [w]) := by
  intro ws
  induction ws with
  | nil =>
    intro cur _
    rw [wrapLoop]
    by_cases hc : cur = []
    · rw [if_pos hc, hc]; rfl
    · rw [if_neg hc]
      simp [wordsOf]
  | cons w ws ih =>
    intro cur hws
    obtain ⟨hw1, hw2⟩ := hws w (List.mem_cons_self w ws)
    have hws' := fun y hy => hws y (List.mem_cons_of_mem w hy)
    rw [wrapLoop]
    by_cases hlong : mx < w.length
    · rw [if_pos hlong]
      rw [List.flatMap_append, List.flatMap_append, ih [] hws']
      have hchunks : (chunksOf mx w).flatMap wordsOf = chunksOf mx w := by
        apply flatMap_wordsOf_self
        intro x hx
        obtain ⟨h1, _, h3⟩ := chunksOf_mem mx w x hx
        exact ⟨h1, fun c hc => hw2 c (h3 c hc)⟩
      rw [hchunks, List.flatMap_cons, if_pos hlong]
      by_cases hc : cur = []
      · rw [if_pos hc, hc]
        simp [wordsOf, wordsOfAux]
      · rw [if_neg hc]
        simp [wordsOf, wordsOfAux, List.append_assoc]
    · rw [if_neg hlong]
      by_cases hfits : cur.length + w.length + (if cur = [] then 0 else 1) ≤ mx
      · rw [if_pos hfits, ih _ hws']
        have hcur' : wordsOf (cur ++ (if cur = [] then [] else [' ']) ++ w) =
            wordsOf cur ++ [w] := by
          by_cases hc : cur = []
          · rw [if_pos hc, hc]
            simpa [wordsOf] using wordsOf_single w hw1 hw2
          · rw [if_neg hc, List.append_assoc, List.singleton_append]
            rw [wordsOf, wordsOfAux_append_space]
            rw [show wordsOfAux w [] = wordsOf w from rfl, wordsOf_single w hw1 hw2]
            rfl
        rw [hcur', List.flatMap_cons, if_neg hlong]
        simp [List.append_assoc]
      · rw [if_neg hfits, List.flatMap_cons, ih _ hws']
        rw [wordsOf_single w hw1 hw2, List.flatMap_cons, if_neg hlong]

/-- Every produced line fits into the limit. -/
theorem wrapLoop_le (mx : Nat) :
    ∀ (ws : List (List Char)) (cur : List Char), cur.length ≤ mx →
      ∀ l ∈ wrapLoop mx ws cur, l.length ≤ mx := by
  intro ws
  induction ws with
  | nil =>
    intro cur hcur l hl
    rw [wrapLoop] at hl
    split at hl
    · cases hl
    · rw [List.mem_singleton] at hl
      exact hl ▸ hcur
  | cons w ws ih =>
    intro cur hcur l hl
    rw [wrapLoop] at hl
    by_cases hlong : mx < w.length
    · rw [if_pos hlong] at hl
      rcases List.mem_append.mp hl with hl' | hl'
      · rcases List.mem_append.mp hl' with hl'' | hl''
        · split at hl''
          · cases hl''
          · rw [List.mem_singleton] at hl''
            exact hl'' ▸ hcur
        · exact (chunksOf_mem mx w l hl'').2.1
      · exact ih [] (Nat.zero_le mx) l hl'
    · rw [if_neg hlong] at hl
      by_cases hfits : cur.length + w.length + (if cur = [] then 0 else 1) ≤ mx
      · rw [if_pos hfits] at hl
        refine ih _ ?_ l hl
        by_cases hc : cur = []
        · simp only [hc, if_pos] at hfits ⊢
          simp only [List.length_append]
          simp [hc] at hfits ⊢
          omega
        · simp only [hc, if_neg, if_false] at hfits ⊢
          simp only [List.length_append]
          simp [hc] at hfits ⊢
          omega
      · rw [if_neg hfits] at hl
        rcases List.mem_cons.mp hl with rfl | hl'
        · exact hcur
        · exact ih w (by omega) l hl'

/-- Characters of produced lines come from the current line, the words, or
the inserted single spaces. -/
theorem wrapLoop_chars (mx : Nat) :
    ∀ (ws : List (List Char)) (cur : List Char), ∀ l ∈ wrapLoop mx ws cur,
      ∀ c ∈ l, c ∈ cur ∨ (∃ w ∈ ws, c ∈ w) ∨ c = ' ' := by
  intro ws
  induction ws with
  | nil =>
    intro cur l hl c hc
    rw [wrapLoop] at hl
    split at hl
    · cases hl
    · rw [List.mem_singleton] at hl
      exact Or.inl (hl ▸ hc)
  | cons w ws ih =>
    intro cur l hl c hc
    rw [wrapLoop] at hl
    by_cases hlong : mx < w.length
    · rw [if_pos hlong] at hl
      rcases List.mem_append.mp hl with hl' | hl'
      · rcases List.mem_append.mp hl' with hl'' | hl''
        · split at hl''
          · cases hl''
          · rw [List.mem_singleton] at hl''
            exact Or.inl (hl'' ▸ hc)
        · exact Or.inr (Or.inl ⟨w, List.mem_cons_self w ws,
            (chunksOf_mem mx w l hl'').2.2 c hc⟩)
      · rcases ih [] l hl' c hc with h | h | h
        · cases h
        · obtain ⟨w', hw', hcw⟩ := h
          exact Or.inr (Or.inl ⟨w', List.mem_cons_of_mem w hw', hcw⟩)
        · exact Or.inr (Or.inr h)
    · rw [if_neg hlong] at hl
      by_cases hfits : cur.length + w.length + (if cur = [] then 0 else 1) ≤ mx
      · rw [if_pos hfits] at hl
        rcases ih _ l hl c hc with h | h | h
        · rcases List.mem_append.mp h with h' | h'
          · rcases List.mem_append.mp h' with h'' | h''
            · exact Or.inl h''
            · split at h''
              · cases h''
              · rw [List.mem_singleton] at h''
                exact Or.inr (Or.inr h'')
          · exact Or.inr (Or.inl ⟨w, List.mem_cons_self w ws, h'⟩)
        · obtain ⟨w', hw', hcw⟩ := h
          exact Or.inr (Or.inl ⟨w', List.mem_cons_of_mem w hw', hcw⟩)
        · exact Or.inr (Or.inr h)
      · rw [if_neg hfits] at hl
        rcases List.mem_cons.mp hl with rfl | hl'
        · exact Or.inl hc
        · rcases ih w l hl' c hc with h | h | h
          · exact Or.inr (Or.inl ⟨w, List.mem_cons_self w ws, h⟩)
          · obtain ⟨w', hw', hcw⟩ := h
            exact Or.inr (Or.inl ⟨w', List.mem_cons_of_mem w hw', hcw⟩)
          · exact Or.inr (Or.inr h)

/-- Scanning a tail free of line terminators yields a single run. -/
theorem dotRunsAux_single (l : List Char) :
    ∀ (acc : List Char), (∀ c ∈ l, jsDotChar c = true) → (acc ≠ [] ∨ l ≠ []) →
      dotRunsAux l acc = [acc.reverse ++ l] := by
  induction l with
  | nil =>
    intro acc _ hne
    rw [dotRunsAux, if_neg (by tauto)]
    simp
  | cons c l' ih =>
    intro acc hl _
    rw [dotRunsAux, if_pos (hl c (List.mem_cons_self c l'))]
    rw [ih (c :: acc) (fun d hd => hl d (List.mem_cons_of_mem c hd)) (Or.inl (by simp))]
    simp

/-- On non-empty line-terminator-free input, the `/.{1,72}/g` matches are
exactly the 72-chunks. -/
theorem jsMatch172_eq (l : List Char) (hne : l ≠ [])
    (h : ∀ c ∈ l, jsDotChar c = true) : jsMatch172 l = chunksOf 72 l := by
  rw [jsMatch172, dotRunsAux_single l [] h (Or.inr hne)]
  simp

/-- Decoding a base64 digit of a 6-bit value recovers the value. -/
theorem b64Val_b64Char : ∀ n < 64, b64Val (b64Char n) = n := by decide

/-- Base64 digits are alphabet characters. -/
theorem b64Char_mem (n : Nat) : b64Char n ∈ b64Alphabet := by
  rw [b64Char]
  rcases h : b64Alphabet[n]? with _ | c
  · simp [List.getD, h]
    decide
  · have hc : c ∈ b64Alphabet := by
      have := List.getElem?_eq_some_iff.mp h
      obtain ⟨hlt, he⟩ := this
      exact he ▸ List.getElem_mem hlt
    simpa [List.getD, h] using hc

/-- A base64 digit is never the padding character. -/
theorem b64Char_ne_pad (n : Nat) : b64Char n ≠ '=' :=
  fun h => absurd (h ▸ b64Char_mem n) (by decide)

/-- Every encoded character is padding or an alphabet character. -/
theorem mem_b64encode : ∀ (bs : List Nat) (c : Char), c ∈ b64encode bs →
    c = '=' ∨ c ∈ b64Alphabet
  | [], c, h => by simp [b64encode] at h
  | [a], c, h => by
    simp only [b64encode, List.mem_cons, List.mem_singleton] at h
    rcases h with rfl | rfl | rfl | rfl | h
    · exact Or.inr (b64Char_mem _)
    · exact Or.inr (b64Char_mem _)
    · exact Or.inl rfl
    · exact Or.inl rfl
    · cases h
  | [a, b], c, h => by
    simp only [b64encode, List.mem_cons, List.mem_singleton] at h
    rcases h with rfl | rfl | rfl | rfl | h
    · exact Or.inr (b64Char_mem _)
    · exact Or.inr (b64Char_mem _)
    · exact Or.inr (b64Char_mem _)
    · exact Or.inl rfl
    · cases h
  | a :: b :: c' :: rest, c, h => by
    simp only [b64encode, List.mem_cons] at h
    rcases h with rfl | rfl | rfl | rfl | h
    · exact Or.inr (b64Char_mem _)
    · exact Or.inr (b64Char_mem _)
    · exact Or.inr (b64Char_mem _)
    · exact Or.inr (b64Char_mem _)
    · exact mem_b64encode rest c h

/-- A scalar value is below the Unicode bound. -/
theorem char_toNat_lt (c : Char) : c.toNat < 1114112 := by
  have h := c.valid
  have he : c.toNat = c.val.toNat := rfl
  rcases h with h | h <;> omega

/-- UTF-8 bytes are bytes. -/
theorem utf8Bytes_lt (c : Char) : ∀ x ∈ utf8Bytes c, x < 256 := by
  have hv := char_toNat_lt c
  intro x hx
  rw [utf8Bytes] at hx
  split at hx
  · simp only [List.mem_singleton] at hx
    omega
  · split at hx
    · simp only [List.mem_cons, List.mem_singleton, List.not_mem_nil, or_false] at hx
      rcases hx with rfl | rfl <;> omega
    · split at hx
      · simp only [List.mem_cons, List.mem_singleton, List.not_mem_nil, or_false] at hx
        rcases hx with rfl | rfl | rfl <;> omega
      · simp only [List.mem_cons, List.mem_singleton, List.not_mem_nil, or_false] at hx
        rcases hx with rfl | rfl | rfl | rfl <;> omega

/-- UTF-8 bytes are non-empty per character. -/
theorem utf8Bytes_ne_nil (c : Char) : utf8Bytes c ≠ [] := by
  rw [utf8Bytes]
  split
  · simp
  · split
    · simp
    · split <;> simp

/-- The byte sequence of a string consists of bytes. -/
theorem strBytes_lt (s : String) : ∀ x ∈ strBytes s, x < 256 := by
  intro x hx
  rw [strBytes] at hx
  obtain ⟨c, _, hcx⟩ := List.mem_flatMap.mp hx
  exact utf8Bytes_lt c x hcx

/-- Base64 decoding inverts base64 encoding on byte sequences. -/
theorem b64_roundtrip : ∀ (bs : List Nat), (∀ x ∈ bs, x < 256) →
    b64decode (b64encode bs) = bs
  | [], _ => rfl
  | [a], h => by
    have ha : a < 256 := h a (List.mem_singleton.mpr rfl)
    rw [b64encode, b64decode, if_pos rfl]
    rw [b64Val_b64Char (a / 4) (by omega), b64Val_b64Char (a % 4 * 16) (by omega)]
    have : a / 4 * 4 + a % 4 * 16 / 16 = a := by omega
    rw [this]
  | [a, b], h => by
    have ha : a < 256 := h a (by simp)
    have hb : b < 256 := h b (by simp)
    rw [b64encode, b64decode]
    rw [if_neg (b64Char_ne_pad (b % 16 * 4)), if_pos rfl]
    rw [b64Val_b64Char (a / 4) (by omega),
      b64Val_b64Char (a % 4 * 16 + b / 16) (by omega),
      b64Val_b64Char (b % 16 * 4) (by omega)]
    have h1 : a / 4 * 4 + (a % 4 * 16 + b / 16) / 16 = a := by omega
    have h2 : (a % 4 * 16 + b / 16) % 16 * 16 + b % 16 * 4 / 4 = b := by omega
    rw [h1, h2]
  | a :: b :: c :: rest, h => by
    have ha : a < 256 := h a (by simp)
    have hb : b < 256 := h b (by simp)
    have hc : c < 256 := h c (by simp)
    rw [b64encode, b64decode]
    rw [if_neg (b64Char_ne_pad (b % 16 * 4 + c / 64)),
      if_neg (b64Char_ne_pad (c % 64))]
    rw [b64Val_b64Char (a / 4) (by omega),
      b64Val_b64Char (a % 4 * 16 + b / 16) (by omega),
      b64Val_b64Char (b % 16 * 4 + c / 64) (by omega),
      b64Val_b64Char (c % 64) (by omega)]
    have h1 : a / 4 * 4 + (a % 4 * 16 + b / 16) / 16 = a := by omega
    have h2 : (a % 4 * 16 + b / 16) % 16 * 16 + (b % 16 * 4 + c / 64) / 4 = b := by omega
    have h3 : (b % 16 * 4 + c / 64) % 4 * 64 + c % 64 = c := by omega
    rw [h1, h2, h3]
    rw [b64_roundtrip rest (fun x hx => h x (by simp [hx]))]

/-- Encoded characters are neither whitespace, nor colon, dash, CR or LF. -/
theorem b64_char_clean : ∀ c ∈ '=' :: b64Alphabet,
    jsSpace c = false ∧ c ≠ ':' ∧ c ≠ '-' ∧ c ≠ '\r' ∧ c ≠ '\n' := by decide

/-- `noColonB` characterisation. -/
theorem noColonB_iff (s : String) : noColonB s = true ↔ ':' ∉ s.data := by
  rw [noColonB, List.all_eq_true]
  constructor
  · intro h hc
    simpa using h ':' hc
  · intro h c hc
    simp only [Bool.not_eq_eq_eq_not, Bool.not_true, beq_eq_false_iff_ne]
    exact fun e => h (e ▸ hc)

/-- `resolveHeader` reduces to the pipeline when `to` is defined. -/
theorem resolveHeader_eq {e : Email} {toList : List User} (env : Env)
    (hto : e.«to» = some toList) :
    resolveHeader e env = some (resolveSteps e env toList) := by
  rw [resolveHeader, hto]

/-- The resolved `From` header is the computed one. -/
theorem resolve_from (e : Email) (env : Env) (toL : List User) :
    getHeader (resolveSteps e env toL) "From" = some (formatUser e.«from») := by
  cases hr : e.reply <;> cases hcc : e.cc <;>
    simp only [resolveSteps, hr, hcc] <;>
    (repeat rw [getHeader_set_ne _ _ _ _ (by decide)]) <;>
    exact getHeader_set_self _ _ _

/-- The resolved `To` header is the computed one. -/
theorem resolve_to (e : Email) (env : Env) (toL : List User) :
    getHeader (resolveSteps e env toL) "To" =
      some (joinSep ", " (toL.map formatUser)) := by
  cases hr : e.reply <;> cases hcc : e.cc <;>
    simp only [resolveSteps, hr, hcc] <;>
    (repeat rw [getHeader_set_ne _ _ _ _ (by decide)]) <;>
    exact getHeader_set_self _ _ _

/-- The resolved `Subject` header is the computed one. -/
theorem resolve_subject (e : Email) (env : Env) (toL : List User) :
    getHeader (resolveSteps e env toL) "Subject" = some (encodeSubject e.subject) := by
  cases hr : e.reply <;> cases hcc : e.cc <;>
    simp only [resolveSteps, hr, hcc] <;>
    (repeat rw [getHeader_set_ne _ _ _ _ (by decide)]) <;>
    exact getHeader_set_self _ _ _

/-- The resolved `Date` header is the environment clock. -/
theorem resolve_date (e : Email) (env : Env) (toL : List User) :
    getHeader (resolveSteps e env toL) "Date" = some env.now := by
  cases hr : e.reply <;> cases hcc : e.cc <;>
    simp only [resolveSteps, hr, hcc] <;>
    (repeat rw [getHeader_set_ne _ _ _ _ (by decide)]) <;>
    exact getHeader_set_self _ _ _

/-- The resolved `Reply-To` header when a reply address is present. -/
theorem resolve_reply (e : Email) (env : Env) (toL : List User) (r : User)
    (hr : e.reply = some r) :
    getHeader (resolveSteps e env toL) "Reply-To" = some (formatUser r) := by
  cases hcc : e.cc <;>
    simp only [resolveSteps, hr, hcc] <;>
    (repeat rw [getHeader_set_ne _ _ _ _ (by decide)]) <;>
    exact getHeader_set_self _ _ _

/-- The resolved `CC` header when cc recipients are present. -/
theorem resolve_cc (e : Email) (env : Env) (toL : List User) (cc : List User)
    (hcc : e.cc = some cc) :
    getHeader (resolveSteps e env toL) "CC" =
      some (joinSep ", " (cc.map formatUser)) := by
  cases hr : e.reply <;>
    simp only [resolveSteps, hr, hcc] <;>
    (repeat rw [getHeader_set_ne _ _ _ _ (by decide)]) <;>
    exact getHeader_set_self _ _ _

/-- Without a reply address, `Reply-To` keeps the caller's value. -/
theorem resolve_reply_none (e : Email) (env : Env) (toL : List User)
    (hr : e.reply = none) :
    getHeader (resolveSteps e env toL) "Reply-To" =
      getHeader e.headers "Reply-To" := by
  cases hcc : e.cc <;>
    simp only [resolveSteps, hr, hcc] <;>
    (repeat rw [getHeader_set_ne _ _ _ _ (by decide)]) <;>
    rfl

/-- Without cc recipients, `CC` keeps the caller's value. -/
theorem resolve_cc_none (e : Email) (env : Env) (toL : List User)
    (hcc : e.cc = none) :
    getHeader (resolveSteps e env toL) "CC" = getHeader e.headers "CC" := by
  cases hr : e.reply <;>
    simp only [resolveSteps, hr, hcc] <;>
    (repeat rw [getHeader_set_ne _ _ _ _ (by decide)]) <;>
    rfl

/-- The resolved `Message-ID`: the caller's truthy value, or the generated
`<uuid@domain>`. -/
theorem resolve_mid (e : Email) (env : Env) (toL : List User) :
    getHeader (resolveSteps e env toL) "Message-ID" =
      some (match getHeader e.headers "Message-ID" with
        | some v => if v = "" then genMessageId env e.«from».email else v
        | none => genMessageId env e.«from».email) := by
  cases hr : e.reply <;> cases hcc : e.cc <;>
    simp only [resolveSteps, hr, hcc] <;>
    rw [getHeader_set_self] <;>
    (repeat rw [getHeader_set_ne _ _ _ _ (by decide)])

/-- Non-reserved keys keep the caller's values. -/
theorem resolve_preserves (e : Email) (env : Env) (toL : List User) (k : String)
    (hk : ¬k ∈ reservedHeaderKeys) :
    getHeader (resolveSteps e env toL) k = getHeader e.headers k := by
  have h1 : k ≠ "From" := fun h => hk (by rw [h]; decide)
  have h2 : k ≠ "To" := fun h => hk (by rw [h]; decide)
  have h3 : k ≠ "Reply-To" := fun h => hk (by rw [h]; decide)
  have h4 : k ≠ "CC" := fun h => hk (by rw [h]; decide)
  have h5 : k ≠ "Subject" := fun h => hk (by rw [h]; decide)
  have h6 : k ≠ "Date" := fun h => hk (by rw [h]; decide)
  have h7 : k ≠ "Message-ID" := fun h => hk (by rw [h]; decide)
  cases hr : e.reply <;> cases hcc : e.cc <;>
    simp only [resolveSteps, hr, hcc] <;>
    (repeat rw [getHeader_set_ne _ _ _ _ (by assumption)]) <;>
    rfl

/-- The resolved map has duplicate-free keys when the caller's does. -/
theorem resolve_nodup (e : Email) (env : Env) (toL : List User)
    (hnd : (e.headers.map Prod.fst).Nodup) :
    ((resolveSteps e env toL).map Prod.fst).Nodup := by
  cases hr : e.reply <;> cases hcc : e.cc <;>
    simp only [resolveSteps, hr, hcc] <;>
    (repeat apply nodup_keys_setHeader) <;>
    exact hnd

/-- The resolved map contains the key `From`. -/
theorem resolve_mem_from (e : Email) (env : Env) (toL : List User) :
    "From" ∈ (resolveSteps e env toL).map Prod.fst := by
  cases hr : e.reply <;> cases hcc : e.cc <;>
    simp only [resolveSteps, hr, hcc] <;>
    (repeat first
      | exact mem_keys_setHeader _ _ _
      | apply keys_setHeader_mono)

/-- The resolved map contains the key `To`. -/
theorem resolve_mem_to (e : Email) (env : Env) (toL : List User) :
    "To" ∈ (resolveSteps e env toL).map Prod.fst := by
  cases hr : e.reply <;> cases hcc : e.cc <;>
    simp only [resolveSteps, hr, hcc] <;>
    (repeat first
      | exact mem_keys_setHeader _ _ _
      | apply keys_setHeader_mono)

/-- Colon-free caller keys stay colon-free through resolution. -/
theorem resolve_keys_colonfree (e : Email) (env : Env) (toL : List User)
    (h : ∀ p ∈ e.headers, noColonB p.1 = true) :
    ∀ p ∈ resolveSteps e env toL, noColonB p.1 = true := by
  have step : ∀ (m : List (String × String)) (k v : String),
      (∀ p ∈ m, noColonB p.1 = true) → noColonB k = true →
      ∀ p ∈ setHeader m k v, noColonB p.1 = true := by
    intro m k v hm hk p hp
    rcases mem_setHeader hp with h' | h'
    · exact hm p h'
    · rw [h']; exact hk
  cases hr : e.reply <;> cases hcc : e.cc <;>
    simp only [resolveSteps, hr, hcc] <;>
    (repeat first
      | exact h
      | refine step _ _ _ ?_ (by decide))

/-- The `BCC` key is never written by resolution. -/
theorem resolve_bcc (e : Email) (env : Env) (toL : List User) :
    getHeader (resolveSteps e env toL) "BCC" = getHeader e.headers "BCC" :=
  resolve_preserves e env toL "BCC" (by decide)

/-- The text sub-part renders its structured lines. -/
theorem textBlock_eq (A txt : String) :
    renderLines (["--" ++ A, ctPlainLine, ""] ++ blockOf (wrapText txt 998)) =
      "--" ++ A ++ "\r\n" ++ ctPlainLine ++ "\r\n\r\n" ++
        joinSep "\r\n" (wrapText txt 998) ++ "\r\n\r\n" := by
  rw [renderLines_append]
  conv_rhs => simp only [String.append_assoc]
  rw [joinSep_block]
  simp only [renderLines]
  rw [show ("\r\n\r\n" : String) = "\r\n" ++ "\r\n" from rfl]
  simp [String.append_assoc, String.append_empty, String.empty_append]

/-- The html sub-part renders its structured lines. -/
theorem htmlBlock_eq (A h : String) :
    renderLines (["--" ++ A, ctHtmlLine, cteBase64Line, ""] ++
        blockOf (wrapText (b64OfString h) 76)) =
      "--" ++ A ++ "\r\n" ++ ctHtmlLine ++ "\r\n" ++ cteBase64Line ++ "\r\n\r\n" ++
        joinSep "\r\n" (wrapText (b64OfString h) 76) ++ "\r\n\r\n" := by
  rw [renderLines_append]
  conv_rhs => simp only [String.append_assoc]
  rw [joinSep_block]
  simp only [renderLines]
  rw [show ("\r\n\r\n" : String) = "\r\n" ++ "\r\n" from rfl]
  simp [String.append_assoc, String.append_empty, String.empty_append]

/-- One attachment part renders its structured lines (for content free of
line terminators). -/
theorem attachmentString_eq (env : Env) (M : String) (a : Attachment)
    (h : ∀ c ∈ a.content.data, jsDotChar c = true) :
    renderLines (attachmentLines env M a) = attachmentString env M a := by
  rw [attachmentString, attachmentLines, attachContentLines, attachmentContentStr]
  by_cases hd : a.content.data = []
  · have hc : a.content = "" := str_ext (by simpa using hd)
    have hm : jsMatch172 a.content.data = [] := by rw [hd]; rfl
    rw [if_pos hm, if_pos hm, hc]
    simp only [renderLines]
    apply str_ext
    simp [String.data_append, List.append_assoc]
  · have hm : jsMatch172 a.content.data = chunksOf 72 a.content.data :=
      jsMatch172_eq a.content.data hd h
    have hch : chunksOf 72 a.content.data =
        a.content.data.take 72 :: chunksOf 72 (a.content.data.drop 72) := by
      rw [chunksOf_eq]
      rw [if_neg (by simp [hd])]
    have hne : ¬jsMatch172 a.content.data = [] := by
      rw [hm, hch]
      simp
    rw [if_neg hne, if_neg hne]
    have h2 : (jsMatch172 a.content.data).map (fun l => String.mk l) ++ [""] =
        blockOf ((jsMatch172 a.content.data).map (fun l => String.mk l)) := by
      rw [blockOf, if_neg (by simpa using hne)]
    rw [h2, renderLines_append, ← joinSep_block]
    simp only [renderLines]
    apply str_ext
    simp [String.data_append, List.append_assoc]

/-- All attachment parts render their structured lines. -/
theorem attachmentsBlock_eq (env : Env) (M : String) (as : List Attachment)
    (h : ∀ a ∈ as, ∀ c ∈ a.content.data, jsDotChar c = true) :
    renderLines (as.flatMap (attachmentLines env M)) =
      joinAll (as.map (attachmentString env M)) := by
  induction as with
  | nil => rfl
  | cons a as ih =>
    rw [List.flatMap_cons, List.map_cons, renderLines_append]
    rw [attachmentString_eq env M a (h a (List.mem_cons_self a as))]
    rw [ih (fun b hb => h b (List.mem_cons_of_mem a hb))]
    rfl

/-- The body string is the rendering of the body lines (for attachment
contents free of line terminators). -/
theorem bodyString_eq (e : Email) (env : Env)
    (hatt : ∀ a ∈ e.attachments.getD [], ∀ c ∈ a.content.data, jsDotChar c = true) :
    bodyString e env = renderLines (bodyLines e env) := by
  cases hatts : e.attachments with
  | none =>
    apply str_ext
    by_cases ht : truthy e.text = true <;> by_cases hh : truthy e.html = true <;>
      simp [bodyString, bodyLines, ht, hh, hatts, renderLines, renderLines_append,
        ← joinSep_block, String.data_append, List.append_assoc]
  | some as =>
    have hA : renderLines (as.flatMap (attachmentLines env (mixedBoundary env))) =
        joinAll (as.map (attachmentString env (mixedBoundary env))) := by
      apply attachmentsBlock_eq
      rw [hatts] at hatt
      simpa using hatt
    apply str_ext
    by_cases ht : truthy e.text = true <;> by_cases hh : truthy e.html = true <;>
      simp [bodyString, bodyLines, ht, hh, hatts, hA, renderLines, renderLines_append,
        ← joinSep_block, String.data_append, List.append_assoc]

/-- A non-empty prefix fixes the head of an appended list. -/
theorem head?_append_left {l1 l2 : List Char} {c : Char} (h : l1.head? = some c) :
    (l1 ++ l2).head? = some c := by
  cases l1 with
  | nil => cases h
  | cons a t => simpa using h

/-- The payload of `getEmailData` is the rendering of `emailLines`, and the
returned message is the input with the resolved header map. -/
theorem getEmailData_eq (e : Email) (env : Env) (h' : List (String × String))
    (hres : resolveHeader e env = some h')
    (hatt : ∀ a ∈ e.attachments.getD [], ∀ c ∈ a.content.data, jsDotChar c = true) :
    getEmailData e env =
      some (renderLines (emailLines env h' e), { e with headers := h' }) := by
  have hpay : joinSep "\r\n" (headersArray env h') ++ "\r\n\r\n" ++ bodyString e env =
      renderLines (emailLines env h' e) := by
    have hA : renderLines (headersArray env h') =
        joinSep "\r\n" (headersArray env h') ++ "\r\n" := by
      rw [headersArray]
      exact renderLines_eq_joinSep _ _
    rw [emailLines, renderLines_append, renderLines_append, hA,
      bodyString_eq e env hatt]
    apply str_ext
    simp [renderLines, String.data_append, List.append_assoc]
  rw [getEmailData, hres]
  show some (joinSep "\r\n" (headersArray env h') ++ "\r\n\r\n" ++ bodyString e env,
      { e with headers := h' }) = _
  rw [hpay]

/-- Exactly one line of the header block carries a given (colon-free,
present, non-`M`/`C`-initial) key. -/
theorem headersArray_countP_key (env : Env) (h : List (String × String))
    (hnd : (h.map Prod.fst).Nodup) (hcol : ∀ p ∈ h, noColonB p.1 = true)
    (name : String) (c0 : Char) (hmem : name ∈ h.map Prod.fst)
    (hnc : ':' ∉ name.data) (hhead : name.data.head? = some c0)
    (hcM : c0 ≠ 'M') (hcC : c0 ≠ 'C') :
    (headersArray env h).countP (fun l => startsB (name ++ ": ") l) = 1 := by
  have hph : (name ++ ": ").data.head? = some c0 := by
    rw [String.data_append]
    exact head?_append_left hhead
  have hMIME : startsB (name ++ ": ") "MIME-Version: 1.0" = false := by
    cases hb : startsB (name ++ ": ") "MIME-Version: 1.0" with
    | false => rfl
    | true =>
      have := startsB_head hb hph
      rw [show ("MIME-Version: 1.0" : String).data.head? = some 'M' from rfl] at this
      exact absurd (Option.some.inj this).symm hcM
  have hCT : startsB (name ++ ": ") (ctMixedLine env) = false := by
    cases hb : startsB (name ++ ": ") (ctMixedLine env) with
    | false => rfl
    | true =>
      have h1 := startsB_head hb hph
      have h2 : (ctMixedLine env).data.head? = some 'C' := by
        rw [ctMixedLine, String.data_append, String.data_append]
        exact head?_append_left (head?_append_left rfl)
      rw [h2] at h1
      exact absurd (Option.some.inj h1).symm hcC
  have hmid : (h.map (fun p => p.1 ++ ": " ++ p.2)).countP
      (fun l => startsB (name ++ ": ") l) = 1 := by
    rw [List.countP_map]
    have hcongr : ∀ q ∈ h,
        ((fun l => startsB (name ++ ": ") l) ∘ fun p => p.1 ++ ": " ++ p.2) q = true ↔
          (fun p : String × String => p.1 == name) q = true := by
      intro q hq
      have hqc : ':' ∉ q.1.data := (noColonB_iff q.1).mp (hcol q hq)
      show startsB (name ++ ": ") (q.1 ++ ": " ++ q.2) = true ↔ (q.1 == name) = true
      rw [startsB_header_iff hqc hnc]
      exact beq_iff_eq.symm
    rw [List.countP_congr hcongr]
    exact countP_key_eq_one hnd hmem
  rw [headersArray, List.countP_append, List.countP_cons, hmid]
  simp [hMIME, hCT, List.countP_cons, List.countP_nil]

/-- The head of a generated boundary is the (safe) head of its prefix. -/
theorem boundary_head (pfx hex : String) (c : Char)
    (hc : pfx.data.head? = some c) (hbad : boundaryBadChar c = false) :
    (generateSafeBoundary pfx hex).data.head? = some c := by
  rw [generateSafeBoundary]
  show (((pfx ++ hex).data).map _).head? = some c
  rw [List.head?_map, String.data_append, head?_append_left hc]
  simp [hbad]

/-- Every character of a generated boundary is safe. -/
theorem boundary_clean (pfx hex : String) :
    ∀ c ∈ (generateSafeBoundary pfx hex).data, boundaryBadChar c = false := by
  intro c hc
  rw [generateSafeBoundary] at hc
  obtain ⟨d, _, hd⟩ := List.mem_map.mp hc
  by_cases hbd : boundaryBadChar d = true
  · rw [← hd]
    simp only [hbd, if_true]
    decide
  · rw [← hd]
    simp only [Bool.not_eq_true] at hbd
    simp [hbd]

/-- Claim C6: within one composition the two generated boundary strings
(prefixes `mixed_` and `alternative_`) are distinct, even when the random
hex strings coincide, and neither contains any character of the unsafe set
`<>@,;:\/[]?=" ` (space included). -/
theorem C6_boundaries_distinct_and_safe :
    ∀ (h1 h2 : String),
      generateSafeBoundary "mixed_" h1 ≠ generateSafeBoundary "alternative_" h2 ∧
      (∀ c ∈ (generateSafeBoundary "mixed_" h1).data, boundaryBadChar c = false) ∧
      (∀ c ∈ (generateSafeBoundary "alternative_" h2).data, boundaryBadChar c = false) := by
  intro h1 h2
  refine ⟨?_, boundary_clean _ _, boundary_clean _ _⟩
  apply ne_of_data_head
  rw [boundary_head "mixed_" h1 'm' rfl (by decide),
    boundary_head "alternative_" h2 'a' rfl (by decide)]
  decide

/-- Counterexample to claim C4 as stated: `text` is supplied (an empty
string) and `html` is absent, yet construction fails, because JS falsiness
treats the empty string like an absent field. -/
theorem C4_counterexample :
    optsEmptyText.text = some "" ∧ mkEmail optsEmptyText = none := by
  constructor
  · rfl
  · rfl

/-- Claim C4 (amended): construction fails exactly when neither a truthy
(non-empty) `text` nor a truthy `html` is provided — the empty string
counts as absent; every other input is accepted. -/
theorem C4_construction_guard (o : EmailOptions) :
    mkEmail o = none ↔ (truthy o.text = false ∧ truthy o.html = false) := by
  rw [mkEmail]
  constructor
  · intro h
    by_cases ht : truthy o.text = true
    · rw [if_neg (by simp [ht])] at h
      cases h
    · by_cases hh : truthy o.html = true
      · rw [if_neg (by simp [hh])] at h
        cases h
      · simp only [Bool.not_eq_true] at ht hh
        exact ⟨ht, hh⟩
  · rintro ⟨ht, hh⟩
    rw [if_pos (by simp [ht, hh])]

/-- Counterexample to claim C7 as stated: an empty recipient array is
truthy in JS, so `toUsers` returns the empty list (not `undefined`), and
the constructed message has an empty `to` sequence. -/
theorem C7_counterexample :
    toUsers (some (.many [])) = some [] ∧ some ([] : List User) ≠ none ∧
      mkEmail optsEmptyTo = some emailEmptyTo ∧ emailEmptyTo.«to» = some [] := by
  refine ⟨rfl, by simp, rfl, rfl⟩

/-- Claim C7 (amended): `toUsers` returns `undefined` for an absent input
and for an empty string; a bare non-empty string becomes `{email}`; a
`User` stays; each list element resolves independently (so an empty list
yields the empty list, not `undefined`); consequently a constructed
message's `to` is `undefined` exactly for empty-string input and empty
exactly for empty-array input. -/
theorem C7_to_normalization (s : String) (xs : List StrOrUser) (u : User)
    (o : EmailOptions) (e : Email) :
    toUsers none = none ∧
    toUsers (some (.one (.str ""))) = none ∧
    (s ≠ "" → toUsers (some (.one (.str s))) = some [{ name := none, email := s }]) ∧
    toUsers (some (.one (.user u))) = some [u] ∧
    toUsers (some (.many xs)) = some (xs.map coerceUser) ∧
    (mkEmail o = some e →
      (e.«to» = none ↔ o.«to» = .one (.str "")) ∧
      (e.«to» = some [] ↔ o.«to» = .many [])) := by
  refine ⟨rfl, by rw [toUsers, if_pos rfl], fun hs => by rw [toUsers, if_neg hs],
    rfl, rfl, ?_⟩
  intro hmk
  have he : e.«to» = toUsers (some o.«to») := by
    rw [mkEmail] at hmk
    split at hmk
    · cases hmk
    · cases hmk
      rfl
  rw [he]
  constructor
  · constructor
    · intro hn
      cases hto : o.«to» with
      | one x =>
        cases x with
        | str t =>
          rw [hto, toUsers] at hn
          split at hn
          · next ht => rw [ht]
          · cases hn
        | user v => rw [hto] at hn; cases hn
      | many ys => rw [hto] at hn; cases hn
    · intro hto
      rw [hto, toUsers, if_pos rfl]
  · constructor
    · intro hn
      cases hto : o.«to» with
      | one x =>
        cases x with
        | str t =>
          rw [hto, toUsers] at hn
          split at hn
          · cases hn
          · simp at hn
        | user v =>
          rw [hto, toUsers] at hn
          simp at hn
      | many ys =>
        rw [hto, toUsers] at hn
        simp only [Option.some.injEq, List.map_eq_nil_iff] at hn
        rw [hn]
    · intro hto
      rw [hto, toUsers]
      rfl

/-- Counterexample to claim C8 as stated: a filename with an empty
extension (trailing dot) does not fall back to `application/octet-stream`
— the empty extension is replaced by the key `txt`, yielding
`text/plain`. -/
theorem C8_counterexample :
    getMimeType "a." = .str "text/plain" ∧
    getMimeType "a." ≠ .str "application/octet-stream" ∧
    getMimeType "a.constructor" = .protoMember "constructor" ∧
    getMimeType "a.__proto__" = .protoMember "__proto__" ∧
    (∀ s, getMimeType "a.constructor" ≠ .str s) := by
  refine ⟨rfl, by decide, rfl, rfl, ?_⟩
  intro s h
  exact MimeResult.noConfusion h

/-- Claim C8 (amended): the extension is the lower-cased last
`'.'`-separated component (the whole filename when it has no dot); a known
extension maps through the fixed table; an unknown non-empty extension
maps to `application/octet-stream` unless it names an `Object.prototype`
member (such as `constructor` or `__proto__`), in which case the lookup
returns that inherited truthy non-string value; an empty extension falls
back to the key `txt`, i.e. `text/plain`; in particular `a.pdf` maps to
`application/pdf`. -/
theorem C8_mime_type (filename : String) :
    (fileExtension filename ≠ "" → fileExtension filename ∉ mimeTable.map Prod.fst →
      fileExtension filename ∉ objectProtoMembers →
      getMimeType filename = .str "application/octet-stream") ∧
    (fileExtension filename ≠ "" → fileExtension filename ∉ mimeTable.map Prod.fst →
      fileExtension filename ∈ objectProtoMembers →
      getMimeType filename = .protoMember (fileExtension filename)) ∧
    (fileExtension filename = "" → getMimeType filename = .str "text/plain") ∧
    (∀ ext mime, (ext, mime) ∈ mimeTable → fileExtension filename = ext →
      getMimeType filename = .str mime) ∧
    getMimeType "a.pdf" = .str "application/pdf" ∧
    getMimeType "A.PDF" = .str "application/pdf" := by
  have hkey_ne : fileExtension filename ≠ "" →
      mimeKey filename = fileExtension filename := by
    intro hne
    rw [mimeKey, if_neg hne]
  have hfind : fileExtension filename ≠ "" →
      fileExtension filename ∉ mimeTable.map Prod.fst →
      mimeTable.find? (fun p => p.1 == mimeKey filename) = none := by
    intro hne hmem
    rw [hkey_ne hne, List.find?_eq_none]
    intro p hp hbeq
    exact hmem (List.mem_map.mpr ⟨p, hp, beq_iff_eq.mp hbeq⟩)
  refine ⟨?_, ?_, ?_, ?_, rfl, rfl⟩
  · intro hne hmem hproto
    rw [getMimeType, hfind hne hmem, hkey_ne hne, if_neg hproto]
  · intro hne hmem hproto
    rw [getMimeType, hfind hne hmem, hkey_ne hne, if_pos hproto]
  · intro hz
    rw [getMimeType, mimeKey, hz]
    rfl
  · intro ext mime hmem hext
    simp only [mimeTable, List.mem_cons, List.not_mem_nil, or_false] at hmem
    rcases hmem with h|h|h|h|h|h|h|h|h <;> cases h <;>
      (rw [getMimeType, mimeKey, hext]; try rfl)

/-- Witness for claim C7: the amended normalization at concrete inputs. -/
theorem C7_witness :
    toUsers (some (.one (.str "b@example.com"))) =
      some [{ name := none, email := "b@example.com" }] ∧
    (emailEmptyTo.«to» = none ↔ optsEmptyTo.«to» = .one (.str "")) ∧
    (emailEmptyTo.«to» = some [] ↔ optsEmptyTo.«to» = .many []) := by
  have h := C7_to_normalization "b@example.com" [] userA optsEmptyTo emailEmptyTo
  exact ⟨h.2.2.1 (by decide), (h.2.2.2.2.2 rfl).1, (h.2.2.2.2.2 rfl).2⟩

/-- Witness for claim C8: the amended inference at concrete filenames. -/
theorem C8_witness :
    getMimeType "archive.xyz" = .str "application/octet-stream" ∧
    getMimeType "a." = .str "text/plain" ∧
    getMimeType "photo.JPG" = .str "image/jpeg" ∧
    getMimeType "a.__proto__" = .protoMember "__proto__" := by
  refine ⟨(C8_mime_type "archive.xyz").1 (by decide) (by decide) (by decide),
    (C8_mime_type "a.").2.2.1 (by decide),
    (C8_mime_type "photo.JPG").2.2.2.1 "jpg" "image/jpeg" (by decide) (by decide),
    (C8_mime_type "a.__proto__").2.1 (by decide) (by decide) (by decide)⟩

/-- A prefix starting with a different character than the string rules the
prefix test out. -/
theorem startsB_false_of_head {p x : String} {c d : Char}
    (hp : p.data.head? = some c) (hx : x.data.head? = some d) (hne : c ≠ d) :
    startsB p x = false := by
  cases hb : startsB p x with
  | false => rfl
  | true =>
    have h1 := startsB_head hb hp
    rw [hx] at h1
    exact absurd (Option.some.inj h1).symm hne

/-- A successful read locates the entry in the map. -/
theorem getHeader_mem {m : List (String × String)} {k v : String}
    (h : getHeader m k = some v) : (k, v) ∈ m := by
  rw [getHeader] at h
  cases hf : m.find? (fun p => p.1 == k) with
  | none => rw [hf] at h; cases h
  | some p =>
    rw [hf] at h
    have hp := List.find?_some hf
    have hm := List.mem_of_find?_eq_some hf
    have h2 : p.2 = v := by simpa using h
    have h1 : p.1 = k := beq_iff_eq.mp hp
    have he : p = (k, v) := by
      rw [← h1, ← h2]
    exact he ▸ hm

/-- A key-wise property closed under the written key passes `setHeader`. -/
theorem keys_setHeader_pred (P : String → Prop) (m : List (String × String))
    (k v : String) (hm : ∀ x ∈ m.map Prod.fst, P x) (hk : P k) :
    ∀ x ∈ (setHeader m k v).map Prod.fst, P x := by
  intro x hx
  obtain ⟨p, hp, he⟩ := List.mem_map.mp hx
  rcases mem_setHeader hp with h' | h'
  · exact he ▸ hm p.1 (List.mem_map.mpr ⟨p, h', rfl⟩)
  · rw [← he, h']
    exact hk

/-- Every key of the resolved map is a caller key or a reserved key. -/
theorem resolve_keys_subset (e : Email) (env : Env) (toL : List User) :
    ∀ k ∈ (resolveSteps e env toL).map Prod.fst,
      k ∈ e.headers.map Prod.fst ∨ k ∈ reservedHeaderKeys := by
  have base : ∀ x ∈ e.headers.map Prod.fst,
      x ∈ e.headers.map Prod.fst ∨ x ∈ reservedHeaderKeys := fun x hx => Or.inl hx
  cases hr : e.reply <;> cases hcc : e.cc <;>
    simp only [resolveSteps, hr, hcc] <;>
    (repeat first
      | exact base
      | refine keys_setHeader_pred _ _ _ _ ?_ (Or.inr (by decide)))

/-- A line of the payload's header block: part of `headersArray`. -/
theorem mem_headersArray {h : List (String × String)} {k v : String}
    (env : Env) (hm : (k, v) ∈ h) : (k ++ ": " ++ v) ∈ headersArray env h := by
  rw [headersArray]
  exact List.mem_append_left _ (List.mem_cons_of_mem _
    (List.mem_map.mpr ⟨(k, v), hm, rfl⟩))

/-- Claim C9: the Subject header is always emitted in UTF-8 base64
encoded-word form `=?utf-8?b?<base64(subject)>?=`, whatever the subject. -/
theorem C9_subject_always_encoded (e : Email) (env : Env) (toL : List User)
    (hto : e.«to» = some toL) :
    resolveHeader e env = some (resolveSteps e env toL) ∧
    getHeader (resolveSteps e env toL) "Subject" =
      some ("=?utf-8?b?" ++ b64OfString e.subject ++ "?=") ∧
    ("Subject" ++ ": " ++ ("=?utf-8?b?" ++ b64OfString e.subject ++ "?=")) ∈
      headersArray env (resolveSteps e env toL) := by
  have h1 : getHeader (resolveSteps e env toL) "Subject" =
      some ("=?utf-8?b?" ++ b64OfString e.subject ++ "?=") := by
    rw [resolve_subject, encodeSubject]
  exact ⟨resolveHeader_eq env hto, h1, mem_headersArray env (getHeader_mem h1)⟩

/-- Witness for claim C9: subject `"Hi"` yields exactly
`Subject: =?utf-8?b?SGk=?=`. -/
theorem C9_witness :
    getHeader (resolveSteps emailA envA [userB]) "Subject" = some "=?utf-8?b?SGk=?=" ∧
    "Subject: =?utf-8?b?SGk=?=" ∈ headersArray envA (resolveSteps emailA envA [userB]) := by
  have h := C9_subject_always_encoded emailA envA [userB] rfl
  constructor
  · rw [h.2.1]
    rfl
  · exact h.2.2

/-- Claim C3: BCC addresses never reach the composed payload: the payload
is unchanged under any change of the `bcc` field (same randomness and
clock), and resolution never writes a `BCC` header, so with no
caller-supplied `BCC` key no header line starts with `BCC: `. -/
theorem C3_bcc_never_in_payload (e : Email) (env : Env) (toL : List User)
    (b1 b2 : Option (List User)) (hto : e.«to» = some toL)
    (hcol : ∀ p ∈ e.headers, noColonB p.1 = true)
    (hbcc : "BCC" ∉ e.headers.map Prod.fst) :
    (getEmailData { e with bcc := b1 } env).map Prod.fst =
      (getEmailData { e with bcc := b2 } env).map Prod.fst ∧
    getHeader (resolveSteps e env toL) "BCC" = getHeader e.headers "BCC" ∧
    "BCC" ∉ (resolveSteps e env toL).map Prod.fst ∧
    ∀ l ∈ headersArray env (resolveSteps e env toL), startsB "BCC: " l = false := by
  refine ⟨?_, resolve_bcc e env toL, ?_, ?_⟩
  · cases e with
    | mk f toF r cc b sub tx hh att hd dsn =>
      cases toF with
      | none => rfl
      | some toL2 => rfl
  · intro hmem
    rcases resolve_keys_subset e env toL "BCC" hmem with h | h
    · exact hbcc h
    · revert h
      decide
  · have hnotmem : "BCC" ∉ (resolveSteps e env toL).map Prod.fst := by
      intro hmem
      rcases resolve_keys_subset e env toL "BCC" hmem with h | h
      · exact hbcc h
      · revert h
        decide
    intro l hl
    rw [headersArray] at hl
    rcases List.mem_append.mp hl with hl' | hl'
    · rcases List.mem_cons.mp hl' with rfl | hl''
      · decide
      · obtain ⟨p, hp, he⟩ := List.mem_map.mp hl''
        rw [← he]
        have hpc : ':' ∉ p.1.data :=
          (noColonB_iff p.1).mp (resolve_keys_colonfree e env toL hcol p hp)
        cases hb : startsB ("BCC" ++ ": ") (p.1 ++ ": " ++ p.2) with
        | false =>
          rw [show ("BCC: " : String) = "BCC" ++ ": " from rfl]
          exact hb
        | true =>
          have := (startsB_header_iff hpc (by decide)).mp hb
          exact absurd (List.mem_map.mpr ⟨p, hp, this⟩) hnotmem
    · rw [List.mem_singleton] at hl'
      rw [hl']
      exact startsB_false_of_head rfl
        (by rw [ctMixedLine, String.data_append, String.data_append];
            exact head?_append_left (head?_append_left rfl)) (by decide)

/-- Witness for claim C3 at a concrete message and environment. -/
theorem C3_witness :
    (getEmailData { emailA with bcc := some [userB] } envA).map Prod.fst =
      (getEmailData { emailA with bcc := none } envA).map Prod.fst ∧
    getHeader (resolveSteps emailA envA [userB]) "BCC" = none := by
  have h := C3_bcc_never_in_payload emailA envA [userB] (some [userB]) none rfl
    (by decide) (by decide)
  exact ⟨h.1, by rw [h.2.1]; rfl⟩

/-- Counterexample to claim C2 as stated: with no cc recipients the
caller-supplied custom `CC` header survives resolution (it is not
overwritten by a computed value), and a caller-supplied empty-string
`Message-ID` is not kept verbatim but replaced by a generated id. -/
theorem C2_counterexample :
    emailCC.cc = none ∧
    getHeader emailCC.headers "CC" = some "spy@example.org" ∧
    getHeader (resolveSteps emailCC envA [userB]) "CC" = some "spy@example.org" ∧
    getHeader emailCC.headers "Message-ID" = some "" ∧
    getHeader (resolveSteps emailCC envA [userB]) "Message-ID" =
      some "<11111111-2222-3333-4444-555555555555@example.com>" := by
  refine ⟨rfl, rfl, by decide, rfl, by decide⟩

/-- Claim C2 (amended): every caller-supplied custom header is emitted;
`From`, `To`, `Subject` and `Date` are always overwritten with the
computed values; `Reply-To` and `CC` are overwritten only when the message
has a reply address resp. cc recipients, otherwise the caller's value is
kept; `Message-ID` is kept verbatim when the caller supplied a non-empty
one and is otherwise generated as `<uuid@domain>` where `domain` is the
substring of the From address after the last `@`, so a generated id ends
in `@<domain-of-from-address>>`. -/
theorem C2_header_merge (e : Email) (env : Env) (toL : List User)
    (hto : e.«to» = some toL) :
    resolveHeader e env = some (resolveSteps e env toL) ∧
    (∀ k v, getHeader e.headers k = some v → ¬k ∈ reservedHeaderKeys →
      getHeader (resolveSteps e env toL) k = some v ∧
      (k ++ ": " ++ v) ∈ headersArray env (resolveSteps e env toL)) ∧
    getHeader (resolveSteps e env toL) "From" = some (formatUser e.«from») ∧
    getHeader (resolveSteps e env toL) "To" =
      some (joinSep ", " (toL.map formatUser)) ∧
    getHeader (resolveSteps e env toL) "Subject" = some (encodeSubject e.subject) ∧
    getHeader (resolveSteps e env toL) "Date" = some env.now ∧
    (∀ r, e.reply = some r →
      getHeader (resolveSteps e env toL) "Reply-To" = some (formatUser r)) ∧
    (e.reply = none →
      getHeader (resolveSteps e env toL) "Reply-To" = getHeader e.headers "Reply-To") ∧
    (∀ cc, e.cc = some cc →
      getHeader (resolveSteps e env toL) "CC" =
        some (joinSep ", " (cc.map formatUser))) ∧
    (e.cc = none →
      getHeader (resolveSteps e env toL) "CC" = getHeader e.headers "CC") ∧
    (∀ v, getHeader e.headers "Message-ID" = some v → v ≠ "" →
      getHeader (resolveSteps e env toL) "Message-ID" = some v) ∧
    (getHeader e.headers "Message-ID" = none ∨
        getHeader e.headers "Message-ID" = some "" →
      getHeader (resolveSteps e env toL) "Message-ID" =
        some (genMessageId env e.«from».email) ∧
      ∃ pre, genMessageId env e.«from».email =
        pre ++ ("@" ++ String.mk ((splitOnChar '@' e.«from».email.data).getLast?.getD []) ++ ">")) := by
  refine ⟨resolveHeader_eq env hto, ?_, resolve_from e env toL, resolve_to e env toL,
    resolve_subject e env toL, resolve_date e env toL,
    fun r hr => resolve_reply e env toL r hr, fun hr => resolve_reply_none e env toL hr,
    fun cc hcc => resolve_cc e env toL cc hcc, fun hcc => resolve_cc_none e env toL hcc,
    ?_, ?_⟩
  · intro k v hv hres
    have h1 : getHeader (resolveSteps e env toL) k = some v := by
      rw [resolve_preserves e env toL k hres]
      exact hv
    exact ⟨h1, mem_headersArray env (getHeader_mem h1)⟩
  · intro v hv hne
    rw [resolve_mid, hv]
    show some (if v = "" then genMessageId env e.«from».email else v) = some v
    rw [if_neg hne]
  · intro hcase
    constructor
    · rw [resolve_mid]
      rcases hcase with h | h
      · rw [h]
      · rw [h]
        show some (if ("" : String) = "" then genMessageId env e.«from».email else "") =
          some (genMessageId env e.«from».email)
        rw [if_pos rfl]
    · refine ⟨"<" ++ env.uuid, ?_⟩
      rw [genMessageId]
      apply str_ext
      simp [String.data_append, List.append_assoc]

/-- Witness for claim C2 at a concrete message: custom header preserved,
reserved keys computed, Message-ID generated with the From domain. -/
theorem C2_witness :
    getHeader (resolveSteps emailFull envA [userB]) "X-Custom" = some "1" ∧
    getHeader (resolveSteps emailFull envA [userB]) "From" = some "a@example.com" ∧
    getHeader (resolveSteps emailFull envA [userB]) "Date" =
      some "Mon, 01 Jan 2024 00:00:00 GMT" ∧
    getHeader (resolveSteps emailFull envA [userB]) "Message-ID" =
      some "<11111111-2222-3333-4444-555555555555@example.com>" := by
  have h := C2_header_merge emailFull envA [userB] rfl
  refine ⟨(h.2.1 "X-Custom" "1" rfl (by decide)).1, ?_, ?_, ?_⟩
  · rw [h.2.2.1]
    rfl
  · rw [h.2.2.2.2.2.1]
    rfl
  · rw [(h.2.2.2.2.2.2.2.2.2.2.2 (Or.inl rfl)).1]
    rfl

/-- Base64 encoding is empty only for the empty byte sequence. -/
theorem b64encode_nil_iff (bs : List Nat) : b64encode bs = [] ↔ bs = [] := by
  cases bs with
  | nil => simp [b64encode]
  | cons a t =>
    cases t with
    | nil => simp [b64encode]
    | cons b t2 =>
      cases t2 with
      | nil => simp [b64encode]
      | cons c t3 => simp [b64encode]

/-- Removing CR and LF from a CRLF-join of CR/LF-free lines recovers the
concatenation of the lines. -/
theorem removeCRLF_joinSep (ls : List (List Char))
    (h : ∀ l ∈ ls, ∀ c ∈ l, c ≠ '\r' ∧ c ≠ '\n') :
    removeCRLF (joinSep "\r\n" (ls.map (fun l => String.mk l))).data = ls.flatten := by
  induction ls with
  | nil => rfl
  | cons x xs ih =>
    have hx : List.filter (fun c => !(c == '\r' || c == '\n')) x = x := by
      apply List.filter_eq_self.mpr
      intro c hc
      have := h x (List.mem_cons_self x xs) c hc
      simp only [Bool.or_eq_true, not_or, Bool.not_eq_eq_eq_not, Bool.not_true,
        Bool.or_eq_false_iff, beq_eq_false_iff_ne]
      exact ⟨this.1, this.2⟩
    cases xs with
    | nil =>
      show removeCRLF x = [x].flatten
      rw [removeCRLF, hx]
      simp
    | cons y ys =>
      show removeCRLF ((String.mk x) ++ "\r\n" ++
        joinSep "\r\n" ((y :: ys).map (fun l => String.mk l))).data = (x :: y :: ys).flatten
      rw [String.data_append, String.data_append]
      rw [removeCRLF, List.filter_append, List.filter_append]
      rw [show (String.mk x).data = x from rfl, hx]
      rw [show List.filter (fun c => !(c == '\r' || c == '\n')) ("\r\n" : String).data = [] from rfl]
      rw [show List.filter (fun c => !(c == '\r' || c == '\n'))
        (joinSep "\r\n" ((y :: ys).map (fun l => String.mk l))).data =
        removeCRLF (joinSep "\r\n" ((y :: ys).map (fun l => String.mk l))).data from rfl]
      rw [ih (fun l hl => h l (List.mem_cons_of_mem x hl))]
      simp

/-- Claim C5: every produced line respects the (positive) limit; the words
of the wrapped lines, re-joined with single spaces, are the original word
sequence except for the forced fixed-size splits of over-long words; and
base64-encoding an HTML body, wrapping at 76, removing the line breaks and
decoding reconstructs the original UTF-8 bytes exactly. -/
theorem C5_wrap_roundtrip (text : String) (limit : Nat) (hpos : 0 < limit)
    (html : String) :
    (∀ l ∈ wrapText text limit, l.length ≤ limit) ∧
    wordsOf (joinL [' '] (wrapWords limit text.data)) =
      (wordsOf text.data).flatMap
        (fun w => if limit < w.length then chunksOf limit w else [w]) ∧
    b64decode (removeCRLF (joinSep "\r\n"
        (wrapText (b64OfString html) 76)).data) = strBytes html := by
  have hwf := wordsOfAux_wf text.data [] (by simp)
  refine ⟨?_, ?_, ?_⟩
  · intro l hl
    rw [wrapText] at hl
    obtain ⟨lc, hlc, he⟩ := List.mem_map.mp hl
    have hle := wrapLoop_le limit (wordsOf text.data) [] (by simp) lc hlc
    rw [← he]
    exact hle
  · rw [wordsOf_join, wrapWords,
      wrapLoop_words limit (by omega) (wordsOf text.data) [] hwf]
    rfl
  · have hchars : ∀ c ∈ (b64OfString html).data, c = '=' ∨ c ∈ b64Alphabet :=
      fun c hc => mem_b64encode (strBytes html) c hc
    have hclean : ∀ c ∈ (b64OfString html).data,
        jsSpace c = false ∧ c ≠ '\r' ∧ c ≠ '\n' := by
      intro c hc
      have hmem : c ∈ '=' :: b64Alphabet := by
        rcases hchars c hc with h | h
        · rw [h]; exact List.mem_cons_self _ _
        · exact List.mem_cons_of_mem _ h
      have h1 := b64_char_clean c hmem
      exact ⟨h1.1, h1.2.2.2.1, h1.2.2.2.2⟩
    by_cases hempty : (b64OfString html).data = []
    · have hbs : strBytes html = [] := (b64encode_nil_iff (strBytes html)).mp hempty
      rw [wrapText, wrapWords, hempty, hbs]
      rfl
    · have hone : wordsOf (b64OfString html).data = [(b64OfString html).data] :=
        wordsOf_single _ hempty (fun c hc => (hclean c hc).1)
      rw [wrapText, wrapWords, hone, wrapLoop]
      by_cases h76 : 76 < (b64OfString html).data.length
      · rw [if_pos h76]
        rw [show wrapLoop 76 [] ([] : List Char) = [] from rfl]
        rw [if_pos rfl, List.nil_append, List.append_nil]
        rw [removeCRLF_joinSep (chunksOf 76 (b64OfString html).data)
          (fun l hl c hc => (hclean c ((chunksOf_mem 76 _ l hl).2.2 c hc)).2)]
        rw [chunksOf_flatten 76 (by decide)]
        exact b64_roundtrip (strBytes html) (strBytes_lt html)
      · rw [if_neg h76]
        rw [if_pos (by
          rw [if_pos (rfl : ([] : List Char) = [])]
          simp only [List.length_nil]
          omega)]
        rw [wrapLoop, if_neg (by simpa using hempty)]
        rw [show ([] : List Char) ++ (if ([] : List Char) = [] then [] else [' ']) ++
          (b64OfString html).data = (b64OfString html).data from by simp]
        rw [removeCRLF_joinSep [(b64OfString html).data]
          (fun l hl c hc => by
            rw [List.mem_singleton] at hl
            exact (hclean c (hl ▸ hc)).2)]
        rw [show [(b64OfString html).data].flatten = (b64OfString html).data from by simp]
        exact b64_roundtrip (strBytes html) (strBytes_lt html)

/-- Prefixes extend to the right. -/
theorem startsB_append_of (p a b : String) (h : startsB p a = true) :
    startsB p (a ++ b) = true := by
  obtain ⟨t, ht⟩ := (listIsPfx_iff _ _).mp h
  rw [startsB, String.data_append, ← ht, List.append_assoc]
  exact listIsPfx_self _ _

/-- Characters of a prefix occur in the string. -/
theorem mem_of_startsB {p x : String} (h : startsB p x = true) :
    ∀ c ∈ p.data, c ∈ x.data := by
  obtain ⟨t, ht⟩ := (listIsPfx_iff _ _).mp h
  intro c hc
  rw [← ht]
  exact List.mem_append_left t hc

/-- Two prefixes of one list are comparable. -/
theorem listIsPfx_comm_of : ∀ (p q x : List Char),
    listIsPfx p x = true → listIsPfx q x = true →
    listIsPfx p q = true ∨ listIsPfx q p = true := by
  intro p
  induction p with
  | nil => intro q x _ _; exact Or.inl rfl
  | cons a p' ih =>
    intro q x hp hq
    cases q with
    | nil => exact Or.inr rfl
    | cons b q' =>
      cases x with
      | nil => cases hp
      | cons c x' =>
        rw [listIsPfx, Bool.and_eq_true, beq_iff_eq] at hp hq
        rcases ih q' x' hp.2 hq.2 with h | h
        · exact Or.inl (by rw [listIsPfx, hp.1, hq.1]; simpa using h)
        · exact Or.inr (by rw [listIsPfx, hp.1, hq.1]; simpa using h)

/-- A string with a prefix differs from one without it. -/
theorem ne_of_pfx {p x y : String} (hx : startsB p x = true)
    (hy : startsB p y = false) : x ≠ y := by
  intro e
  rw [e, hy] at hx
  cases hx

/-- A string missing a character of another differs from it. -/
theorem ne_of_chars {l x : String} {d : Char} (hd : d ∈ x.data)
    (hl : ∀ c ∈ l.data, c ≠ d) : l ≠ x := by
  intro e
  exact hl d (by rw [e]; exact hd) rfl

/-- Elements of `blockOf` are lines or the empty terminator. -/
theorem mem_blockOf {ls : List String} {y : String} (h : y ∈ blockOf ls) :
    y ∈ ls ∨ y = "" := by
  rw [blockOf] at h
  split at h
  · rcases List.mem_cons.mp h with rfl | h'
    · exact Or.inr rfl
    · exact Or.inr (List.mem_singleton.mp h')
  · rcases List.mem_append.mp h with h' | h'
    · exact Or.inl h'
    · exact Or.inr (List.mem_singleton.mp h')

/-- Counting over a flat map with a constant per-element count. -/
theorem countP_flatMap_const {α : Type} (p : String → Bool)
    (f : α → List String) (c : Nat) :
    ∀ (as : List α), (∀ a ∈ as, (f a).countP p = c) →
      (as.flatMap f).countP p = c * as.length := by
  intro as
  induction as with
  | nil => intro _; simp
  | cons a as ih =>
    intro h
    rw [List.flatMap_cons, List.countP_append, h a (List.mem_cons_self a as),
      ih (fun b hb => h b (List.mem_cons_of_mem a hb))]
    simp [List.length_cons, Nat.mul_succ, Nat.mul_add, Nat.add_comm]

/-- A selection map is a sublist of the flat map it selects from. -/
theorem map_sublist_flatMap {α : Type} (g : α → String) (f : α → List String)
    (as : List α) (h : ∀ a ∈ as, ([g a]).Sublist (f a)) :
    (as.map g).Sublist (as.flatMap f) := by
  induction as with
  | nil => simp
  | cons a as ih =>
    rw [List.map_cons, List.flatMap_cons, show g a :: as.map g = [g a] ++ as.map g from rfl]
    exact List.Sublist.append (h a (List.mem_cons_self a as))
      (ih (fun b hb => h b (List.mem_cons_of_mem a hb)))

/-- Characters of line-terminator runs come from the input. -/
theorem dotRunsAux_chars (l : List Char) :
    ∀ (acc : List Char), ∀ w ∈ dotRunsAux l acc, ∀ c ∈ w, c ∈ l ∨ c ∈ acc := by
  induction l with
  | nil =>
    intro acc w hw c hc
    rw [dotRunsAux] at hw
    split at hw
    · cases hw
    · rw [List.mem_singleton] at hw
      subst hw
      exact Or.inr (List.mem_reverse.mp hc)
  | cons d l' ih =>
    intro acc w hw c hc
    rw [dotRunsAux] at hw
    by_cases hd : jsDotChar d = true
    · rw [if_pos hd] at hw
      rcases ih (d :: acc) w hw c hc with h | h
      · exact Or.inl (List.mem_cons_of_mem d h)
      · rcases List.mem_cons.mp h with rfl | h'
        · exact Or.inl (List.mem_cons_self c l')
        · exact Or.inr h'
    · rw [if_neg hd] at hw
      split at hw
      · rcases ih [] w hw c hc with h | h
        · exact Or.inl (List.mem_cons_of_mem d h)
        · cases h
      · rcases List.mem_cons.mp hw with rfl | hw'
        · exact Or.inr (List.mem_reverse.mp hc)
        · rcases ih [] w hw' c hc with h | h
          · exact Or.inl (List.mem_cons_of_mem d h)
          · cases h

/-- Characters of `/.{1,72}/g` matches come from the input. -/
theorem jsMatch172_chars (l : List Char) :
    ∀ w ∈ jsMatch172 l, ∀ c ∈ w, c ∈ l := by
  intro w hw c hc
  rw [jsMatch172] at hw
  obtain ⟨run, hrun, hwc⟩ := List.mem_flatMap.mp hw
  have h1 := (chunksOf_mem 72 run w hwc).2.2 c hc
  rcases dotRunsAux_chars l [] run hrun c h1 with h | h
  · exact h
  · cases h

/-- Characters of the base64-wrapped html lines are spaces, padding or
alphabet characters. -/
theorem wrapText_b64_chars (s : String) :
    ∀ l ∈ wrapText (b64OfString s) 76, ∀ c ∈ l.data,
      c = ' ' ∨ c = '=' ∨ c ∈ b64Alphabet := by
  intro l hl c hc
  rw [wrapText] at hl
  obtain ⟨lc, hlc, he⟩ := List.mem_map.mp hl
  have hc' : c ∈ lc := by
    rw [← he] at hc
    exact hc
  rcases wrapLoop_chars 76 (wordsOf (b64OfString s).data) [] lc hlc c hc' with h | h | h
  · cases h
  · obtain ⟨w, hw, hcw⟩ := h
    rcases wordsOfAux_chars (b64OfString s).data [] w hw c hcw with h' | h'
    · rcases mem_b64encode (strBytes s) c h' with h'' | h''
      · exact Or.inr (Or.inl h'')
      · exact Or.inr (Or.inr h'')
    · cases h'
  · exact Or.inl h

/-- Strings with pairwise-incomparable prefixes differ. -/
theorem ne_of_two_pfx {p q x y : String} (hx : startsB p x = true)
    (hy : startsB q y = true) (hpq : listIsPfx p.data q.data = false)
    (hqp : listIsPfx q.data p.data = false) : x ≠ y := by
  intro e
  rw [e] at hx
  rcases listIsPfx_comm_of p.data q.data y.data hx hy with h | h
  · rw [hpq] at h; cases h
  · rw [hqp] at h; cases h

/-- A string with one prefix cannot have an incomparable second prefix. -/
theorem startsB_false_of_two {p q x : String} (hp : startsB p x = true)
    (hpq : listIsPfx p.data q.data = false)
    (hqp : listIsPfx q.data p.data = false) : startsB q x = false := by
  cases hb : startsB q x with
  | false => rfl
  | true =>
    rcases listIsPfx_comm_of p.data q.data x.data hp hb with h | h
    · rw [hpq] at h; cases h
    · rw [hqp] at h; cases h

/-- Prefix tests compose along prefixes. -/
theorem startsB_trans {a b x : String} (hab : listIsPfx a.data b.data = true)
    (hbx : startsB b x = true) : startsB a x = true := by
  obtain ⟨t1, ht1⟩ := (listIsPfx_iff _ _).mp hab
  obtain ⟨t2, ht2⟩ := (listIsPfx_iff _ _).mp hbx
  rw [startsB]
  apply (listIsPfx_iff _ _).mpr
  exact ⟨t1 ++ t2, by rw [← ht2, ← ht1, List.append_assoc]⟩

/-- Counting over a block of lines that all fail the predicate. -/
theorem blockOf_count_zero (p : String → Bool) (ls : List String)
    (h : ∀ l ∈ ls, p l = false) (h0 : p "" = false) :
    (blockOf ls).countP p = 0 := by
  apply List.countP_eq_zero.mpr
  intro y hy
  rcases mem_blockOf hy with h' | h'
  · simp [h y h']
  · simp [h', h0]

/-- Counting over the chunked attachment content when every chunk line
fails the predicate. -/
theorem attachContent_count_zero (p : String → Bool) (content : String)
    (h : ∀ l ∈ jsMatch172 content.data, p (String.mk l) = false)
    (h0 : p "" = false) : (attachContentLines content).countP p = 0 := by
  apply List.countP_eq_zero.mpr
  intro y hy
  rw [attachContentLines] at hy
  split at hy
  · rcases List.mem_cons.mp hy with rfl | hy'
    · simp [h0]
    · rw [List.mem_singleton] at hy'
      simp [hy', h0]
  · rcases List.mem_append.mp hy with hy' | hy'
    · obtain ⟨lc, hlc, he⟩ := List.mem_map.mp hy'
      rw [← he]
      simp [h lc hlc]
    · rw [List.mem_singleton] at hy'
      simp [hy', h0]

/-- Unequal strings test `==`-false. -/
theorem beq_false_of_ne {a b : String} (h : a ≠ b) : (a == b) = false := by
  cases hb : a == b with
  | false => rfl
  | true => exact absurd (by simpa using hb) h

/-- The head character of an attachment Content-Type line. -/
theorem head_attachmentCTLine (a : Attachment) :
    (attachmentCTLine a).data.head? = some 'C' := by
  rw [attachmentCTLine]
  simp only [String.data_append]
  exact head?_append_left (head?_append_left (head?_append_left
    (head?_append_left rfl)))

/-- An attachment Content-Type line starts with the literal field name. -/
theorem ctstart_attachmentCTLine (a : Attachment) :
    startsB "Content-Type: " (attachmentCTLine a) = true := by
  rw [attachmentCTLine]
  exact startsB_append_of _ _ _ (startsB_append_of _ _ _
    (startsB_append_of _ _ _ (startsB_append_right _ _)))

/-- In one attachment part the mixed boundary delimiter line occurs exactly
once, provided the raw content contains no dash. -/
theorem attLines_count_dashM (env : Env) (a : Attachment)
    (hcontent : ∀ c ∈ a.content.data, c ≠ '-') :
    (attachmentLines env (mixedBoundary env) a).countP
      (fun l => l == "--" ++ mixedBoundary env) = 1 := by
  have hdt : ("--" ++ mixedBoundary env : String).data.head? = some '-' := by
    rw [String.data_append]
    exact head?_append_left rfl
  have hmemdash : '-' ∈ ("--" ++ mixedBoundary env : String).data := by
    rw [String.data_append]
    exact List.mem_append_left _ (by decide)
  have hCT : (attachmentCTLine a == "--" ++ mixedBoundary env) = false :=
    beq_false_of_ne (ne_of_data_head (by rw [head_attachmentCTLine a, hdt]; decide))
  have hCDhd : (("Content-Description: " ++ a.filename : String)).data.head? = some 'C' := by
    rw [String.data_append]
    exact head?_append_left rfl
  have hCD : (("Content-Description: " ++ a.filename : String) ==
      "--" ++ mixedBoundary env) = false :=
    beq_false_of_ne (ne_of_data_head (by rw [hCDhd, hdt]; decide))
  have hDishd : (("Content-Disposition: attachment; filename=\"" ++ a.filename ++ "\";" :
      String)).data.head? = some 'C' := by
    simp only [String.data_append]
    exact head?_append_left (head?_append_left rfl)
  have hDis : (("Content-Disposition: attachment; filename=\"" ++ a.filename ++ "\";" :
      String) == "--" ++ mixedBoundary env) = false :=
    beq_false_of_ne (ne_of_data_head (by rw [hDishd, hdt]; decide))
  have hDatehd : (("    creation-date=\"" ++ env.now ++ "\";" : String)).data.head? =
      some ' ' := by
    simp only [String.data_append]
    exact head?_append_left (head?_append_left rfl)
  have hDate : (("    creation-date=\"" ++ env.now ++ "\";" : String) ==
      "--" ++ mixedBoundary env) = false :=
    beq_false_of_ne (ne_of_data_head (by rw [hDatehd, hdt]; decide))
  have hCte : (cteBase64Line == "--" ++ mixedBoundary env) = false :=
    beq_false_of_ne (ne_of_data_head (by rw [hdt]; decide))
  have hemp : (("" : String) == "--" ++ mixedBoundary env) = false :=
    beq_false_of_ne (ne_of_data_head (by rw [hdt]; decide))
  have hcontent0 : (attachContentLines a.content).countP
      (fun l => l == "--" ++ mixedBoundary env) = 0 := by
    apply attachContent_count_zero
    · intro l hl
      apply beq_false_of_ne
      apply ne_of_chars hmemdash
      intro c hc
      exact hcontent c (jsMatch172_chars a.content.data l hl c hc)
    · exact hemp
  rw [attachmentLines, List.countP_append, hcontent0]
  simp [List.countP_cons, List.countP_nil, hCT, hCD, hDis, hDate, hCte, hemp]

/-- A Content-Type-shaped target line distinct from the attachment's own
Content-Type line never occurs in an attachment part (colon-free content). -/
theorem attLines_count_ct (env : Env) (a : Attachment) (t : String)
    (hCTt : startsB "Content-Type: " t = true)
    (hcolon : ':' ∈ t.data)
    (hneCT : (attachmentCTLine a == t) = false)
    (hcte : (cteBase64Line == t) = false)
    (hcontent : ∀ c ∈ a.content.data, c ≠ ':') :
    (attachmentLines env (mixedBoundary env) a).countP (fun l => l == t) = 0 := by
  have hth : t.data.head? = some 'C' := startsB_head hCTt rfl
  have hdt : ("--" ++ mixedBoundary env : String).data.head? = some '-' := by
    rw [String.data_append]
    exact head?_append_left rfl
  have hdashM : (("--" ++ mixedBoundary env : String) == t) = false :=
    beq_false_of_ne (ne_of_data_head (by rw [hdt, hth]; decide))
  have hCD : (("Content-Description: " ++ a.filename : String) == t) = false :=
    beq_false_of_ne
      (ne_of_two_pfx (startsB_append_right "Content-Description: " a.filename) hCTt
        (by decide) (by decide))
  have hDis : (("Content-Disposition: attachment; filename=\"" ++ a.filename ++ "\";" :
      String) == t) = false :=
    beq_false_of_ne
      (ne_of_two_pfx (startsB_append_of _ _ _
          (startsB_append_right "Content-Disposition: attachment; filename=\"" a.filename))
        hCTt (by decide) (by decide))
  have hDatehd : (("    creation-date=\"" ++ env.now ++ "\";" : String)).data.head? =
      some ' ' := by
    simp only [String.data_append]
    exact head?_append_left (head?_append_left rfl)
  have hDate : (("    creation-date=\"" ++ env.now ++ "\";" : String) == t) = false :=
    beq_false_of_ne (ne_of_data_head (by rw [hDatehd, hth]; decide))
  have hemp : (("" : String) == t) = false :=
    beq_false_of_ne (ne_of_data_head (by rw [hth]; decide))
  have hcontent0 : (attachContentLines a.content).countP (fun l => l == t) = 0 := by
    apply attachContent_count_zero
    · intro l hl
      apply beq_false_of_ne
      apply ne_of_chars hcolon
      intro c hc
      exact hcontent c (jsMatch172_chars a.content.data l hl c hc)
    · exact hemp
  rw [attachmentLines, List.countP_append, hcontent0]
  simp [List.countP_cons, List.countP_nil, hdashM, hneCT, hCD, hDis, hDate, hcte, hemp]

/-- Exactly one Content-Description line per attachment part (colon-free
content). -/
theorem attLines_count_cd (env : Env) (a : Attachment)
    (hcontent : ∀ c ∈ a.content.data, c ≠ ':') :
    (attachmentLines env (mixedBoundary env) a).countP
      (fun l => startsB "Content-Description: " l) = 1 := by
  have hdt : ("--" ++ mixedBoundary env : String).data.head? = some '-' := by
    rw [String.data_append]
    exact head?_append_left rfl
  have h1 : startsB "Content-Description: " ("--" ++ mixedBoundary env) = false :=
    startsB_false_of_head rfl hdt (by decide)
  have h2 : startsB "Content-Description: " (attachmentCTLine a) = false :=
    startsB_false_of_two (ctstart_attachmentCTLine a) (by decide) (by decide)
  have h3 : startsB "Content-Description: " ("Content-Description: " ++ a.filename) =
      true := startsB_append_right _ _
  have h4 : startsB "Content-Description: "
      ("Content-Disposition: attachment; filename=\"" ++ a.filename ++ "\";") = false :=
    startsB_false_of_two
      (startsB_append_of _ _ _
        (startsB_append_right "Content-Disposition: attachment; filename=\"" a.filename))
      (by decide) (by decide)
  have hDatehd : (("    creation-date=\"" ++ env.now ++ "\";" : String)).data.head? =
      some ' ' := by
    simp only [String.data_append]
    exact head?_append_left (head?_append_left rfl)
  have h5 : startsB "Content-Description: "
      ("    creation-date=\"" ++ env.now ++ "\";") = false :=
    startsB_false_of_head rfl hDatehd (by decide)
  have h6 : startsB "Content-Description: " cteBase64Line = false := by decide
  have h7 : startsB "Content-Description: " "" = false := by decide
  have hcontent0 : (attachContentLines a.content).countP
      (fun l => startsB "Content-Description: " l) = 0 := by
    apply attachContent_count_zero
    · intro l hl
      cases hb : startsB "Content-Description: " (String.mk l) with
      | false => rfl
      | true =>
        have hmem : ':' ∈ (String.mk l).data := mem_of_startsB hb ':' (by decide)
        exact absurd rfl (hcontent ':' (jsMatch172_chars a.content.data l hl ':' hmem))
    · exact h7
  rw [attachmentLines, List.countP_append, hcontent0]
  simp [List.countP_cons, List.countP_nil, h1, h2, h3, h4, h5, h6, h7]

/-- The per-attachment creation-date line occurs in the body lines. -/
theorem mem_bodyLines_creation (e' : Email) (env' : Env) (as : List Attachment)
    (a : Attachment) (hatts : e'.attachments = some as) (ha : a ∈ as) :
    ("    creation-date=\"" ++ env'.now ++ "\";") ∈ bodyLines e' env' := by
  rw [bodyLines, hatts]
  refine List.mem_append_left _ (List.mem_append_right _ ?_)
  refine List.mem_flatMap.mpr ⟨a, ha, ?_⟩
  rw [attachmentLines]
  refine List.mem_append_left _ ?_
  simp

/-- Claim C10: `getEmailData` rewrites only the `headers` map of the
message, storing the computed From, To, Subject, Date and Message-ID; the
Message-ID generated by the first call is stored and reused verbatim by a
second call under fresh randomness, while the Date header, the boundary
strings and the attachment creation dates are recomputed from the new
environment. -/
theorem C10_header_mutation (e : Email) (env env2 : Env) (toL : List User)
    (hto : e.«to» = some toL)
    (hmid : getHeader e.headers "Message-ID" = none)
    (hatt : ∀ a ∈ e.attachments.getD [], ∀ c ∈ a.content.data, jsDotChar c = true) :
    ∃ p1 e1 p2 e2,
      getEmailData e env = some (p1, e1) ∧
      e1.«from» = e.«from» ∧ e1.«to» = e.«to» ∧ e1.reply = e.reply ∧
      e1.cc = e.cc ∧ e1.bcc = e.bcc ∧ e1.subject = e.subject ∧
      e1.text = e.text ∧ e1.html = e.html ∧ e1.attachments = e.attachments ∧
      e1.dsnOverride = e.dsnOverride ∧
      e1.headers = resolveSteps e env toL ∧
      getHeader e1.headers "From" = some (formatUser e.«from») ∧
      getHeader e1.headers "To" = some (joinSep ", " (toL.map formatUser)) ∧
      getHeader e1.headers "Subject" = some (encodeSubject e.subject) ∧
      getHeader e1.headers "Date" = some env.now ∧
      getHeader e1.headers "Message-ID" = some (genMessageId env e.«from».email) ∧
      getEmailData e1 env2 = some (p2, e2) ∧
      getHeader e2.headers "Message-ID" = some (genMessageId env e.«from».email) ∧
      getHeader e2.headers "Date" = some env2.now ∧
      p2 = renderLines (emailLines env2 (resolveSteps e1 env2 toL) e1) ∧
      ctMixedLine env2 ∈ headersArray env2 (resolveSteps e1 env2 toL) ∧
      (∀ as a, e.attachments = some as → a ∈ as →
        ("    creation-date=\"" ++ env2.now ++ "\";") ∈ bodyLines e1 env2) := by
  have hmid1 : getHeader (resolveSteps e env toL) "Message-ID" =
      some (genMessageId env e.«from».email) := by
    rw [resolve_mid, hmid]
  refine ⟨renderLines (emailLines env (resolveSteps e env toL) e),
    { e with headers := resolveSteps e env toL }, _, _,
    getEmailData_eq e env _ (resolveHeader_eq env hto) hatt,
    rfl, rfl, rfl, rfl, rfl, rfl, rfl, rfl, rfl, rfl, rfl,
    resolve_from e env toL, resolve_to e env toL, resolve_subject e env toL,
    resolve_date e env toL, hmid1,
    getEmailData_eq _ env2 _ (resolveHeader_eq env2 hto) hatt, ?_, ?_, rfl, ?_, ?_⟩
  · show getHeader (resolveSteps { e with headers := resolveSteps e env toL } env2 toL)
      "Message-ID" = some (genMessageId env e.«from».email)
    rw [resolve_mid]
    show some (match getHeader (resolveSteps e env toL) "Message-ID" with
      | some v => if v = "" then _ else v
      | none => _) = _
    rw [hmid1]
    show some (if genMessageId env e.«from».email = "" then _
      else genMessageId env e.«from».email) = _
    rw [if_neg ?_]
    apply ne_of_data_head
    rw [genMessageId]
    rw [show (("<" ++ env.uuid ++ "@" ++
        String.mk ((splitOnChar '@' e.«from».email.data).getLast?.getD []) ++ ">") : String) =
      "<" ++ (env.uuid ++ "@" ++
        String.mk ((splitOnChar '@' e.«from».email.data).getLast?.getD []) ++ ">") from by
        simp [String.append_assoc]]
    rw [String.data_append]
    rw [head?_append_left (rfl : ("<" : String).data.head? = some '<')]
    simp
  · exact resolve_date _ env2 toL
  · rw [headersArray]
    exact List.mem_append_right _ (List.mem_singleton.mpr rfl)
  · intro as a hatts ha
    exact mem_bodyLines_creation _ env2 as a hatts ha

/-- Witness for claim C10 at a concrete message and two environments. -/
theorem C10_witness :
    emailFull.«to» = some [userB] ∧
    getHeader emailFull.headers "Message-ID" = none ∧
    (∃ p1 e1 p2 e2,
      getEmailData emailFull envA = some (p1, e1) ∧
      e1.«from» = emailFull.«from» ∧ e1.«to» = emailFull.«to» ∧
      e1.reply = emailFull.reply ∧ e1.cc = emailFull.cc ∧ e1.bcc = emailFull.bcc ∧
      e1.subject = emailFull.subject ∧ e1.text = emailFull.text ∧
      e1.html = emailFull.html ∧ e1.attachments = emailFull.attachments ∧
      e1.dsnOverride = emailFull.dsnOverride ∧
      e1.headers = resolveSteps emailFull envA [userB] ∧
      getHeader e1.headers "From" = some (formatUser emailFull.«from») ∧
      getHeader e1.headers "To" = some (joinSep ", " ([userB].map formatUser)) ∧
      getHeader e1.headers "Subject" = some (encodeSubject emailFull.subject) ∧
      getHeader e1.headers "Date" = some envA.now ∧
      getHeader e1.headers "Message-ID" =
        some (genMessageId envA emailFull.«from».email) ∧
      getEmailData e1 envB = some (p2, e2) ∧
      getHeader e2.headers "Message-ID" =
        some (genMessageId envA emailFull.«from».email) ∧
      getHeader e2.headers "Date" = some envB.now ∧
      p2 = renderLines (emailLines envB (resolveSteps e1 envB [userB]) e1) ∧
      ctMixedLine envB ∈ headersArray envB (resolveSteps e1 envB [userB]) ∧
      (∀ as a, emailFull.attachments = some as → a ∈ as →
        ("    creation-date=\"" ++ envB.now ++ "\";") ∈ bodyLines e1 envB)) :=
  ⟨rfl, rfl, C10_header_mutation emailFull envA envB [userB] rfl rfl (by decide)⟩

/-- Witness for claim C5 at concrete inputs. -/
theorem C5_witness :
    0 < 5 ∧
    ((∀ l ∈ wrapText "hello world" 5, l.length ≤ 5) ∧
    wordsOf (joinL [' '] (wrapWords 5 ("hello world" : String).data)) =
      (wordsOf ("hello world" : String).data).flatMap
        (fun w => if 5 < w.length then chunksOf 5 w else [w]) ∧
    b64decode (removeCRLF (joinSep "\r\n"
        (wrapText (b64OfString "<p>hi</p>") 76)).data) = strBytes "<p>hi</p>") :=
  ⟨by decide, C5_wrap_roundtrip "hello world" 5 (by decide) "<p>hi</p>"⟩

/-- Counting through a conditionally-present block that never matches. -/
theorem countP_ite_zero (p : String → Bool) (c : Prop) [Decidable c]
    (X : List String) (h : X.countP p = 0) :
    (if c then X else []).countP p = 0 := by
  split
  · exact h
  · rfl

/-- Counting through a conditionally-present block when present. -/
theorem countP_ite_true {c : Prop} [Decidable c] (hc : c)
    (p : String → Bool) (X : List String) :
    (if c then X else []).countP p = X.countP p := by
  rw [if_pos hc]

/-- Claim C1: for every valid message (defined `to`, distinct colon-free
custom header keys, text lines free of `--`/`Content-` prefixes,
attachment content made of benign characters whose Content-Type lines
differ from the fixed part headers), `getEmailData` returns the rendering
of: a CRLF-separated header block — containing `MIME-Version: 1.0`,
exactly one `From` line, exactly one `To` line, and ending with the
`multipart/mixed` Content-Type whose `boundary` parameter is the mixed
boundary — then a blank line, then a body whose first line is the first
mixed-boundary delimiter `--<mixed>`, which contains exactly one
`multipart/alternative` Content-Type line; when `text` is set it contains
exactly one `text/plain` part header, when `html` is set exactly one
`text/html` part header, and when both are set the plain one precedes the
html one; it contains exactly `1 + n` mixed-boundary delimiters and
exactly `n` `Content-Description` lines for `n` attachments (zero when
the attachment list is absent), their filenames in input order, and it
ends with the closing mixed delimiter `--<mixed>--` followed by the `.`
line. -/
theorem C1_payload_structure (e : Email) (env : Env) (toL : List User)
    (hto : e.«to» = some toL)
    (hnd : (e.headers.map Prod.fst).Nodup)
    (hcolfree : ∀ p ∈ e.headers, noColonB p.1 = true)
    (htl : ∀ l ∈ wrapText (e.text.getD "") 998,
      startsB "--" l = false ∧ startsB "Content-" l = false)
    (hac : ∀ a ∈ e.attachments.getD [], ∀ c ∈ a.content.data,
      jsDotChar c = true ∧ c ≠ ':' ∧ c ≠ '-')
    (hactl : ∀ a ∈ e.attachments.getD [], attachmentCTLine a ≠ ctAltLine env ∧
      attachmentCTLine a ≠ ctPlainLine ∧ attachmentCTLine a ≠ ctHtmlLine) :
    getEmailData e env =
      some (renderLines (headersArray env (resolveSteps e env toL) ++ [""] ++
        bodyLines e env), { e with headers := resolveSteps e env toL }) ∧
    "MIME-Version: 1.0" ∈ headersArray env (resolveSteps e env toL) ∧
    (headersArray env (resolveSteps e env toL)).countP
      (fun l => startsB "From: " l) = 1 ∧
    (headersArray env (resolveSteps e env toL)).countP
      (fun l => startsB "To: " l) = 1 ∧
    (headersArray env (resolveSteps e env toL)).getLast? =
      some (ctMixedLine env) ∧
    (bodyLines e env).head? = some ("--" ++ mixedBoundary env) ∧
    (bodyLines e env).countP (fun l => l == ctAltLine env) = 1 ∧
    (truthy e.text = true →
      (bodyLines e env).countP (fun l => l == ctPlainLine) = 1) ∧
    (truthy e.html = true →
      (bodyLines e env).countP (fun l => l == ctHtmlLine) = 1) ∧
    (truthy e.text = true → truthy e.html = true →
      [ctPlainLine, ctHtmlLine].Sublist (bodyLines e env)) ∧
    (bodyLines e env).countP (fun l => l == "--" ++ mixedBoundary env) =
      1 + (e.attachments.getD []).length ∧
    (bodyLines e env).countP
      (fun l => startsB "Content-Description: " l) =
      (e.attachments.getD []).length ∧
    ((e.attachments.getD []).map
      (fun a => "Content-Description: " ++ a.filename)).Sublist
      (bodyLines e env) ∧
    ∃ pre, bodyLines e env =
      pre ++ ["--" ++ mixedBoundary env ++ "--", "."] := by
  have hdot : ∀ a ∈ e.attachments.getD [], ∀ c ∈ a.content.data,
      jsDotChar c = true := fun a ha c hc => (hac a ha c hc).1
  have hL : bodyLines e env =
      ["--" ++ mixedBoundary env, ctAltLine env, ""] ++
      (if truthy e.text = true then
        ["--" ++ altBoundary env, ctPlainLine, ""] ++
          blockOf (wrapText (e.text.getD "") 998)
      else []) ++
      (if truthy e.html = true then
        ["--" ++ altBoundary env, ctHtmlLine, cteBase64Line, ""] ++
          blockOf (wrapText (b64OfString (e.html.getD "")) 76)
      else []) ++
      ["--" ++ altBoundary env ++ "--"] ++
      (e.attachments.getD []).flatMap (attachmentLines env (mixedBoundary env)) ++
      ["--" ++ mixedBoundary env ++ "--", "."] := by
    cases hatt : e.attachments <;> (rw [bodyLines, hatt]; rfl)
  have hMhead : (mixedBoundary env).data.head? = some 'm' :=
    boundary_head "mixed_" env.mixedHex 'm' rfl (by decide)
  have hAhead : (altBoundary env).data.head? = some 'a' :=
    boundary_head "alternative_" env.altHex 'a' rfl (by decide)
  have hdM : ("--" ++ mixedBoundary env : String).data.head? = some '-' := by
    rw [String.data_append]
    exact head?_append_left rfl
  have hdA : ("--" ++ altBoundary env : String).data.head? = some '-' := by
    rw [String.data_append]
    exact head?_append_left rfl
  have hdMM : ("--" ++ mixedBoundary env ++ "--" : String).data.head? =
      some '-' := by
    simp only [String.data_append]
    exact head?_append_left (head?_append_left rfl)
  have hdAA : ("--" ++ altBoundary env ++ "--" : String).data.head? =
      some '-' := by
    simp only [String.data_append]
    exact head?_append_left (head?_append_left rfl)
  have hAneM : ("--" ++ altBoundary env : String) ≠ "--" ++ mixedBoundary env := by
    intro he
    have h2 := congrArg String.data he
    rw [String.data_append, String.data_append] at h2
    have h3 := List.append_cancel_left h2
    have h4 : (altBoundary env).data.head? = (mixedBoundary env).data.head? := by
      rw [h3]
    rw [hAhead, hMhead] at h4
    exact absurd h4 (by decide)
  have hAAneM : ("--" ++ altBoundary env ++ "--" : String) ≠
      "--" ++ mixedBoundary env := by
    intro he
    have h2 := congrArg String.data he
    simp only [String.data_append] at h2
    rw [List.append_assoc] at h2
    have h3 := List.append_cancel_left h2
    have h4 := congrArg List.head? h3
    rw [head?_append_left hAhead, hMhead] at h4
    exact absurd h4 (by decide)
  have hMMneM : ("--" ++ mixedBoundary env ++ "--" : String) ≠
      "--" ++ mixedBoundary env := by
    intro he
    have h2 := congrArg (fun s : String => s.data.length) he
    simp only [String.data_append, List.length_append] at h2
    have hlen2 : ("--" : String).data.length = 2 := rfl
    rw [hlen2] at h2
    omega
  have hAltCpfx : startsB "Content-Type: multipart/alternative; boundary=\""
      (ctAltLine env) = true := by
    rw [ctAltLine]
    exact startsB_append_of _ _ _ (startsB_append_right _ _)
  have hCTalt : startsB "Content-Type: " (ctAltLine env) = true :=
    startsB_trans (by decide) hAltCpfx
  have hAltHead : (ctAltLine env).data.head? = some 'C' := startsB_head hCTalt rfl
  have hColonAlt : ':' ∈ (ctAltLine env).data := mem_of_startsB hCTalt ':' (by decide)
  have hC8alt : startsB "Content-" (ctAltLine env) = true :=
    startsB_trans (by decide) hCTalt
  have hHLchars : ∀ l ∈ wrapText (b64OfString (e.html.getD "")) 76,
      ∀ c ∈ l.data, c ≠ ':' ∧ c ≠ '-' := by
    intro l hl c hc
    rcases wrapText_b64_chars (e.html.getD "") l hl c hc with h | h | h
    · rw [h]
      exact ⟨by decide, by decide⟩
    · rw [h]
      refine ⟨(b64_char_clean '=' (List.mem_cons_self _ _)).2.1,
        (b64_char_clean '=' (List.mem_cons_self _ _)).2.2.1⟩
    · refine ⟨(b64_char_clean c (List.mem_cons_of_mem _ h)).2.1,
        (b64_char_clean c (List.mem_cons_of_mem _ h)).2.2.1⟩
  have hcteAlt : (cteBase64Line == ctAltLine env) = false :=
    beq_false_of_ne (Ne.symm (ne_of_pfx hAltCpfx (by decide)))
  have hempAlt : (("" : String) == ctAltLine env) = false :=
    beq_false_of_ne (ne_of_data_head (by rw [hAltHead]; decide))
  -- decisions against the alternative Content-Type target
  have d1a : (("--" ++ mixedBoundary env : String) == ctAltLine env) = false :=
    beq_false_of_ne (ne_of_data_head (by rw [hdM, hAltHead]; decide))
  have d2a : (("--" ++ altBoundary env : String) == ctAltLine env) = false :=
    beq_false_of_ne (ne_of_data_head (by rw [hdA, hAltHead]; decide))
  have d3a : (("--" ++ altBoundary env ++ "--" : String) == ctAltLine env) = false :=
    beq_false_of_ne (ne_of_data_head (by rw [hdAA, hAltHead]; decide))
  have d4a : (("--" ++ mixedBoundary env ++ "--" : String) == ctAltLine env) = false :=
    beq_false_of_ne (ne_of_data_head (by rw [hdMM, hAltHead]; decide))
  have d5a : (ctPlainLine == ctAltLine env) = false :=
    beq_false_of_ne (Ne.symm (ne_of_pfx hAltCpfx (by decide)))
  have d6a : (ctHtmlLine == ctAltLine env) = false :=
    beq_false_of_ne (Ne.symm (ne_of_pfx hAltCpfx (by decide)))
  have d7a : (("." : String) == ctAltLine env) = false :=
    beq_false_of_ne (ne_of_data_head (by rw [hAltHead]; decide))
  have blockAt : (blockOf (wrapText (e.text.getD "") 998)).countP
      (fun l => l == ctAltLine env) = 0 := by
    apply blockOf_count_zero
    · intro l hl
      exact beq_false_of_ne (Ne.symm (ne_of_pfx hC8alt (htl l hl).2))
    · exact hempAlt
  have blockAh : (blockOf (wrapText (b64OfString (e.html.getD "")) 76)).countP
      (fun l => l == ctAltLine env) = 0 := by
    apply blockOf_count_zero
    · intro l hl
      exact beq_false_of_ne
        (ne_of_chars hColonAlt (fun c hc => (hHLchars l hl c hc).1))
    · exact hempAlt
  have segAt : (["--" ++ altBoundary env, ctPlainLine, ""] ++
      blockOf (wrapText (e.text.getD "") 998)).countP
      (fun l => l == ctAltLine env) = 0 := by
    rw [List.countP_append, blockAt]
    simp [List.countP_cons, List.countP_nil, d2a, d5a, hempAlt]
  have segAh : (["--" ++ altBoundary env, ctHtmlLine, cteBase64Line, ""] ++
      blockOf (wrapText (b64OfString (e.html.getD "")) 76)).countP
      (fun l => l == ctAltLine env) = 0 := by
    rw [List.countP_append, blockAh]
    simp [List.countP_cons, List.countP_nil, d2a, d6a, hcteAlt, hempAlt]
  have iteAt := countP_ite_zero (fun l => l == ctAltLine env)
    (truthy e.text = true) _ segAt
  have iteAh := countP_ite_zero (fun l => l == ctAltLine env)
    (truthy e.html = true) _ segAh
  have attA : ((e.attachments.getD []).flatMap
      (attachmentLines env (mixedBoundary env))).countP
      (fun l => l == ctAltLine env) = 0 := by
    have h := countP_flatMap_const (fun l => l == ctAltLine env)
      (attachmentLines env (mixedBoundary env)) 0 (e.attachments.getD [])
      (fun a ha => attLines_count_ct env a (ctAltLine env) hCTalt hColonAlt
        (beq_false_of_ne (hactl a ha).1) hcteAlt
        (fun c hc => (hac a ha c hc).2.1))
    simpa using h
  have c7 : (bodyLines e env).countP (fun l => l == ctAltLine env) = 1 := by
    rw [hL]
    simp only [List.countP_append, iteAt, iteAh, attA]
    simp [List.countP_cons, List.countP_nil, d1a, d3a, d4a, d7a, hempAlt]
  -- decisions against the text/plain target
  have hPlC : startsB "Content-" ctPlainLine = true := by decide
  have d1p : (("--" ++ mixedBoundary env : String) == ctPlainLine) = false :=
    beq_false_of_ne (ne_of_data_head (by rw [hdM]; decide))
  have d2p : (("--" ++ altBoundary env : String) == ctPlainLine) = false :=
    beq_false_of_ne (ne_of_data_head (by rw [hdA]; decide))
  have d3p : (("--" ++ altBoundary env ++ "--" : String) == ctPlainLine) = false :=
    beq_false_of_ne (ne_of_data_head (by rw [hdAA]; decide))
  have d4p : (("--" ++ mixedBoundary env ++ "--" : String) == ctPlainLine) = false :=
    beq_false_of_ne (ne_of_data_head (by rw [hdMM]; decide))
  have d5p : (ctAltLine env == ctPlainLine) = false :=
    beq_false_of_ne (ne_of_pfx hAltCpfx (by decide))
  have blockPt : (blockOf (wrapText (e.text.getD "") 998)).countP
      (fun l => l == ctPlainLine) = 0 := by
    apply blockOf_count_zero
    · intro l hl
      exact beq_false_of_ne (Ne.symm (ne_of_pfx hPlC (htl l hl).2))
    · decide
  have blockPh : (blockOf (wrapText (b64OfString (e.html.getD "")) 76)).countP
      (fun l => l == ctPlainLine) = 0 := by
    apply blockOf_count_zero
    · intro l hl
      exact beq_false_of_ne
        (ne_of_chars (by decide) (fun c hc => (hHLchars l hl c hc).1))
    · decide
  have segPt : (["--" ++ altBoundary env, ctPlainLine, ""] ++
      blockOf (wrapText (e.text.getD "") 998)).countP
      (fun l => l == ctPlainLine) = 1 := by
    rw [List.countP_append, blockPt]
    simp [List.countP_cons, List.countP_nil, d2p]
    decide
  have segPh : (["--" ++ altBoundary env, ctHtmlLine, cteBase64Line, ""] ++
      blockOf (wrapText (b64OfString (e.html.getD "")) 76)).countP
      (fun l => l == ctPlainLine) = 0 := by
    rw [List.countP_append, blockPh]
    simp [List.countP_cons, List.countP_nil, d2p]
    decide
  have itePh := countP_ite_zero (fun l => l == ctPlainLine)
    (truthy e.html = true) _ segPh
  have attP : ((e.attachments.getD []).flatMap
      (attachmentLines env (mixedBoundary env))).countP
      (fun l => l == ctPlainLine) = 0 := by
    have h := countP_flatMap_const (fun l => l == ctPlainLine)
      (attachmentLines env (mixedBoundary env)) 0 (e.attachments.getD [])
      (fun a ha => attLines_count_ct env a ctPlainLine (by decide) (by decide)
        (beq_false_of_ne (hactl a ha).2.1) (by decide)
        (fun c hc => (hac a ha c hc).2.1))
    simpa using h
  have c8cond : truthy e.text = true →
      (bodyLines e env).countP (fun l => l == ctPlainLine) = 1 := by
    intro ht
    rw [hL]
    simp only [List.countP_append, countP_ite_true ht, segPt, itePh, attP]
    simp [List.countP_cons, List.countP_nil, d1p, d3p, d4p, d5p]
    decide
  -- decisions against the text/html target
  have hHtC : startsB "Content-" ctHtmlLine = true := by decide
  have d1q : (("--" ++ mixedBoundary env : String) == ctHtmlLine) = false :=
    beq_false_of_ne (ne_of_data_head (by rw [hdM]; decide))
  have d2q : (("--" ++ altBoundary env : String) == ctHtmlLine) = false :=
    beq_false_of_ne (ne_of_data_head (by rw [hdA]; decide))
  have d3q : (("--" ++ altBoundary env ++ "--" : String) == ctHtmlLine) = false :=
    beq_false_of_ne (ne_of_data_head (by rw [hdAA]; decide))
  have d4q : (("--" ++ mixedBoundary env ++ "--" : String) == ctHtmlLine) = false :=
    beq_false_of_ne (ne_of_data_head (by rw [hdMM]; decide))
  have d5q : (ctAltLine env == ctHtmlLine) = false :=
    beq_false_of_ne (ne_of_pfx hAltCpfx (by decide))
  have blockQt : (blockOf (wrapText (e.text.getD "") 998)).countP
      (fun l => l == ctHtmlLine) = 0 := by
    apply blockOf_count_zero
    · intro l hl
      exact beq_false_of_ne (Ne.symm (ne_of_pfx hHtC (htl l hl).2))
    · decide
  have blockQh : (blockOf (wrapText (b64OfString (e.html.getD "")) 76)).countP
      (fun l => l == ctHtmlLine) = 0 := by
    apply blockOf_count_zero
    · intro l hl
      exact beq_false_of_ne
        (ne_of_chars (by decide) (fun c hc => (hHLchars l hl c hc).1))
    · decide
  have segQt : (["--" ++ altBoundary env, ctPlainLine, ""] ++
      blockOf (wrapText (e.text.getD "") 998)).countP
      (fun l => l == ctHtmlLine) = 0 := by
    rw [List.countP_append, blockQt]
    simp [List.countP_cons, List.countP_nil, d2q]
    decide
  have segQh : (["--" ++ altBoundary env, ctHtmlLine, cteBase64Line, ""] ++
      blockOf (wrapText (b64OfString (e.html.getD "")) 76)).countP
      (fun l => l == ctHtmlLine) = 1 := by
    rw [List.countP_append, blockQh]
    simp [List.countP_cons, List.countP_nil, d2q]
    decide
  have iteQt := countP_ite_zero (fun l => l == ctHtmlLine)
    (truthy e.text = true) _ segQt
  have attQ : ((e.attachments.getD []).flatMap
      (attachmentLines env (mixedBoundary env))).countP
      (fun l => l == ctHtmlLine) = 0 := by
    have h := countP_flatMap_const (fun l => l == ctHtmlLine)
      (attachmentLines env (mixedBoundary env)) 0 (e.attachments.getD [])
      (fun a ha => attLines_count_ct env a ctHtmlLine (by decide) (by decide)
        (beq_false_of_ne (hactl a ha).2.2) (by decide)
        (fun c hc => (hac a ha c hc).2.1))
    simpa using h
  have c9cond : truthy e.html = true →
      (bodyLines e env).countP (fun l => l == ctHtmlLine) = 1 := by
    intro hh
    rw [hL]
    simp only [List.countP_append, countP_ite_true hh, segQh, iteQt, attQ]
    simp [List.countP_cons, List.countP_nil, d1q, d3q, d4q, d5q]
    decide
  -- decisions against the mixed-boundary delimiter target
  have hDashMemM : '-' ∈ ("--" ++ mixedBoundary env : String).data := by
    rw [String.data_append]
    exact List.mem_append_left _ (by decide)
  have d1m : (ctAltLine env == "--" ++ mixedBoundary env) = false :=
    beq_false_of_ne (ne_of_data_head (by rw [hAltHead, hdM]; decide))
  have d2m : (("--" ++ altBoundary env : String) == "--" ++ mixedBoundary env) =
      false := beq_false_of_ne hAneM
  have d3m : (("--" ++ altBoundary env ++ "--" : String) ==
      "--" ++ mixedBoundary env) = false := beq_false_of_ne hAAneM
  have d4m : (("--" ++ mixedBoundary env ++ "--" : String) ==
      "--" ++ mixedBoundary env) = false := beq_false_of_ne hMMneM
  have d5m : (ctPlainLine == "--" ++ mixedBoundary env) = false :=
    beq_false_of_ne (ne_of_data_head (by rw [hdM]; decide))
  have d6m : (ctHtmlLine == "--" ++ mixedBoundary env) = false :=
    beq_false_of_ne (ne_of_data_head (by rw [hdM]; decide))
  have d7m : (cteBase64Line == "--" ++ mixedBoundary env) = false :=
    beq_false_of_ne (ne_of_data_head (by rw [hdM]; decide))
  have d8m : (("" : String) == "--" ++ mixedBoundary env) = false :=
    beq_false_of_ne (ne_of_data_head (by rw [hdM]; decide))
  have d9m : (("." : String) == "--" ++ mixedBoundary env) = false :=
    beq_false_of_ne (ne_of_data_head (by rw [hdM]; decide))
  have blockMt : (blockOf (wrapText (e.text.getD "") 998)).countP
      (fun l => l == "--" ++ mixedBoundary env) = 0 := by
    apply blockOf_count_zero
    · intro l hl
      exact beq_false_of_ne (Ne.symm
        (ne_of_pfx (startsB_append_right "--" (mixedBoundary env)) (htl l hl).1))
    · exact d8m
  have blockMh : (blockOf (wrapText (b64OfString (e.html.getD "")) 76)).countP
      (fun l => l == "--" ++ mixedBoundary env) = 0 := by
    apply blockOf_count_zero
    · intro l hl
      exact beq_false_of_ne
        (ne_of_chars hDashMemM (fun c hc => (hHLchars l hl c hc).2))
    · exact d8m
  have segMt : (["--" ++ altBoundary env, ctPlainLine, ""] ++
      blockOf (wrapText (e.text.getD "") 998)).countP
      (fun l => l == "--" ++ mixedBoundary env) = 0 := by
    rw [List.countP_append, blockMt]
    simp [List.countP_cons, List.countP_nil, d2m, d5m, d8m]
  have segMh : (["--" ++ altBoundary env, ctHtmlLine, cteBase64Line, ""] ++
      blockOf (wrapText (b64OfString (e.html.getD "")) 76)).countP
      (fun l => l == "--" ++ mixedBoundary env) = 0 := by
    rw [List.countP_append, blockMh]
    simp [List.countP_cons, List.countP_nil, d2m, d6m, d7m, d8m]
  have iteMt := countP_ite_zero (fun l => l == "--" ++ mixedBoundary env)
    (truthy e.text = true) _ segMt
  have iteMh := countP_ite_zero (fun l => l == "--" ++ mixedBoundary env)
    (truthy e.html = true) _ segMh
  have attM : ((e.attachments.getD []).flatMap
      (attachmentLines env (mixedBoundary env))).countP
      (fun l => l == "--" ++ mixedBoundary env) =
      (e.attachments.getD []).length := by
    have h := countP_flatMap_const (fun l => l == "--" ++ mixedBoundary env)
      (attachmentLines env (mixedBoundary env)) 1 (e.attachments.getD [])
      (fun a ha => attLines_count_dashM env a (fun c hc => (hac a ha c hc).2.2))
    simpa using h
  have c11a : (bodyLines e env).countP
      (fun l => l == "--" ++ mixedBoundary env) =
      1 + (e.attachments.getD []).length := by
    rw [hL]
    simp only [List.countP_append, iteMt, iteMh, attM]
    simp [List.countP_cons, List.countP_nil, d1m, d3m, d4m, d8m, d9m]
  -- decisions against the Content-Description prefix target
  have s1 : startsB "Content-Description: " ("--" ++ mixedBoundary env) = false :=
    startsB_false_of_head rfl hdM (by decide)
  have s2 : startsB "Content-Description: " (ctAltLine env) = false :=
    startsB_false_of_two hCTalt (by decide) (by decide)
  have s3 : startsB "Content-Description: " ctPlainLine = false := by decide
  have s4 : startsB "Content-Description: " ctHtmlLine = false := by decide
  have s5 : startsB "Content-Description: " cteBase64Line = false := by decide
  have s6 : startsB "Content-Description: " "" = false := by decide
  have s7 : startsB "Content-Description: " "." = false := by decide
  have s8 : startsB "Content-Description: " ("--" ++ altBoundary env) = false :=
    startsB_false_of_head rfl hdA (by decide)
  have s9 : startsB "Content-Description: " ("--" ++ altBoundary env ++ "--") =
      false := startsB_false_of_head rfl hdAA (by decide)
  have s10 : startsB "Content-Description: " ("--" ++ mixedBoundary env ++ "--") =
      false := startsB_false_of_head rfl hdMM (by decide)
  have blockSt : (blockOf (wrapText (e.text.getD "") 998)).countP
      (fun l => startsB "Content-Description: " l) = 0 := by
    apply blockOf_count_zero
    · intro l hl
      cases hb : startsB "Content-Description: " l with
      | false => rfl
      | true =>
        have h : startsB "Content-" l = true := startsB_trans (by decide) hb
        rw [(htl l hl).2] at h
        exact absurd h (by decide)
    · exact s6
  have blockSh : (blockOf (wrapText (b64OfString (e.html.getD "")) 76)).countP
      (fun l => startsB "Content-Description: " l) = 0 := by
    apply blockOf_count_zero
    · intro l hl
      cases hb : startsB "Content-Description: " l with
      | false => rfl
      | true =>
        exact absurd rfl
          ((hHLchars l hl ':' (mem_of_startsB hb ':' (by decide))).1)
    · exact s6
  have segSt : (["--" ++ altBoundary env, ctPlainLine, ""] ++
      blockOf (wrapText (e.text.getD "") 998)).countP
      (fun l => startsB "Content-Description: " l) = 0 := by
    rw [List.countP_append, blockSt]
    simp [List.countP_cons, List.countP_nil, s8, s3, s6]
  have segSh : (["--" ++ altBoundary env, ctHtmlLine, cteBase64Line, ""] ++
      blockOf (wrapText (b64OfString (e.html.getD "")) 76)).countP
      (fun l => startsB "Content-Description: " l) = 0 := by
    rw [List.countP_append, blockSh]
    simp [List.countP_cons, List.countP_nil, s8, s4, s5, s6]
  have iteSt := countP_ite_zero (fun l => startsB "Content-Description: " l)
    (truthy e.text = true) _ segSt
  have iteSh := countP_ite_zero (fun l => startsB "Content-Description: " l)
    (truthy e.html = true) _ segSh
  have attS : ((e.attachments.getD []).flatMap
      (attachmentLines env (mixedBoundary env))).countP
      (fun l => startsB "Content-Description: " l) =
      (e.attachments.getD []).length := by
    have h := countP_flatMap_const (fun l => startsB "Content-Description: " l)
      (attachmentLines env (mixedBoundary env)) 1 (e.attachments.getD [])
      (fun a ha => attLines_count_cd env a (fun c hc => (hac a ha c hc).2.1))
    simpa using h
  have c11b : (bodyLines e env).countP
      (fun l => startsB "Content-Description: " l) =
      (e.attachments.getD []).length := by
    rw [hL]
    simp only [List.countP_append, iteSt, iteSh, attS]
    simp [List.countP_cons, List.countP_nil, s1, s2, s6, s7, s9, s10]
  have hsubP : [ctPlainLine].Sublist
      (["--" ++ altBoundary env, ctPlainLine, ""] ++
        blockOf (wrapText (e.text.getD "") 998)) := by
    refine List.Sublist.trans ?_ (List.sublist_append_left _ _)
    exact List.Sublist.cons ("--" ++ altBoundary env)
      (List.Sublist.cons₂ ctPlainLine (List.nil_sublist [""]))
  have hsubH : [ctHtmlLine].Sublist
      (["--" ++ altBoundary env, ctHtmlLine, cteBase64Line, ""] ++
        blockOf (wrapText (b64OfString (e.html.getD "")) 76)) := by
    refine List.Sublist.trans ?_ (List.sublist_append_left _ _)
    exact List.Sublist.cons ("--" ++ altBoundary env)
      (List.Sublist.cons₂ ctHtmlLine (List.nil_sublist [cteBase64Line, ""]))
  have c10cond : truthy e.text = true → truthy e.html = true →
      [ctPlainLine, ctHtmlLine].Sublist (bodyLines e env) := by
    intro ht hh
    rw [hL, if_pos ht, if_pos hh]
    refine List.Sublist.trans ?_ (List.sublist_append_left _ _)
    refine List.Sublist.trans ?_ (List.sublist_append_left _ _)
    refine List.Sublist.trans ?_ (List.sublist_append_left _ _)
    rw [List.append_assoc]
    exact List.Sublist.trans (List.Sublist.append hsubP hsubH)
      (List.sublist_append_right _ _)
  have hsubCD : ∀ a ∈ e.attachments.getD [],
      [("Content-Description: " ++ a.filename : String)].Sublist
        (attachmentLines env (mixedBoundary env) a) := by
    intro a _
    rw [attachmentLines]
    refine List.Sublist.trans ?_ (List.sublist_append_left _ _)
    exact List.Sublist.cons _ (List.Sublist.cons _
      (List.Sublist.cons₂ _ (List.nil_sublist _)))
  have c12 : ((e.attachments.getD []).map
      (fun a => "Content-Description: " ++ a.filename)).Sublist
      (bodyLines e env) := by
    rw [hL]
    refine List.Sublist.trans ?_ (List.sublist_append_left _ _)
    exact List.Sublist.trans
      (map_sublist_flatMap (fun a => "Content-Description: " ++ a.filename)
        (attachmentLines env (mixedBoundary env)) (e.attachments.getD []) hsubCD)
      (List.sublist_append_right _ _)
  refine ⟨?_, ?_, ?_, ?_, ?_, ?_, c7, c8cond, c9cond, c10cond, c11a, c11b,
    c12, ⟨_, hL⟩⟩
  · exact getEmailData_eq e env _ (resolveHeader_eq env hto) hdot
  · rw [headersArray]
    exact List.mem_append_left _ (List.mem_cons_self _ _)
  · have h := headersArray_countP_key env (resolveSteps e env toL)
      (resolve_nodup e env toL hnd) (resolve_keys_colonfree e env toL hcolfree)
      "From" 'F' (resolve_mem_from e env toL) (by decide) rfl (by decide)
      (by decide)
    rw [show ("From" ++ ": " : String) = "From: " from rfl] at h
    exact h
  · have h := headersArray_countP_key env (resolveSteps e env toL)
      (resolve_nodup e env toL hnd) (resolve_keys_colonfree e env toL hcolfree)
      "To" 'T' (resolve_mem_to e env toL) (by decide) rfl (by decide)
      (by decide)
    rw [show ("To" ++ ": " : String) = "To: " from rfl] at h
    exact h
  · rw [headersArray]
    exact List.getLast?_concat _
  · rw [hL]
    rfl

/-- Witness for C1: the full message `emailFull` (text, html and one
attachment) and the text-only, attachment-free message `emailA`, both in
environment `envA`, satisfy the hypotheses and the claimed structure
follows; the second instance exercises the unconditional parts on a
message with `html` unset and `attachments` undefined. -/
theorem C1_witness :
    truthy emailFull.text = true ∧ truthy emailFull.html = true ∧
    (bodyLines emailFull envA).countP (fun l => l == ctPlainLine) = 1 ∧
    (bodyLines emailFull envA).countP
      (fun l => startsB "Content-Description: " l) = 1 ∧
    (bodyLines emailFull envA).head? = some ("--" ++ mixedBoundary envA) ∧
    truthy emailA.html = false ∧ emailA.attachments = none ∧
    (bodyLines emailA envA).countP (fun l => l == ctAltLine envA) = 1 ∧
    (bodyLines emailA envA).countP
      (fun l => l == "--" ++ mixedBoundary envA) = 1 := by
  have h := C1_payload_structure emailFull envA [userB] rfl (by decide)
    (by decide) (by decide) (by decide) (by decide)
  have h2 := C1_payload_structure emailA envA [userB] rfl (by decide)
    (by decide) (by decide) (by decide) (by decide)
  exact ⟨by decide, by decide, h.2.2.2.2.2.2.2.1 (by decide),
    h.2.2.2.2.2.2.2.2.2.2.2.1, h.2.2.2.2.2.1, by decide, rfl,
    h2.2.2.2.2.2.2.1, h2.2.2.2.2.2.2.2.2.2.2.1⟩

end Mailer
